import Mathlib

/- Verification development for the skeleton-go-api HTTP client layer: a
shallow embedding of the generic typed request functions (internal/client),
the URL-resolving request builder, the query encoding, the auth dispatch,
the pagination helpers and the photos resource client, together with
theorems checking the specification's claims against that embedding. -/

namespace SkeletonApi

/-! Character-list utilities shared by the embedding.  Strings are
manipulated through their character lists so that every operation is a
structural recursion the kernel can evaluate. -/

/-- Go `strings.Split(s, string(sep))` for a one-character separator,
on character lists.  `strings.Split("", sep) = [""]`. -/
def splitOnSep (sep : Char) : List Char → List (List Char)
  | [] => [[]]
  | c :: rest =>
    if c = sep then [] :: splitOnSep sep rest
    else
      match splitOnSep sep rest with
      | s :: ss => (c :: s) :: ss
      | [] => [[c]]

/-- Go `strings.Join(parts, string(sep))` on character lists. -/
def joinSep (sep : Char) : List (List Char) → List Char
  | [] => []
  | [s] => s
  | s :: ss => s ++ sep :: joinSep sep ss

/-- Does `n` lead (start) the list `hay`? -/
def leadsList : List Char → List Char → Bool
  | [], _ => true
  | _ :: _, [] => false
  | a :: as, b :: bs => a = b && leadsList as bs

/-- Does `n` occur as a contiguous run inside `hay`? -/
def occursIn (n : List Char) : List Char → Bool
  | [] => leadsList n []
  | c :: rest => leadsList n (c :: rest) || occursIn n rest

/-- Last-write-wins insertion into an association list, modelling
assignment `m[k] = v` on a Go `map[string]string` (also `http.Header.Set`
restricted to single-valued headers, which is how this code base uses it). -/
def mapSet : List (String × String) → String → String → List (String × String)
  | [], k, v => [(k, v)]
  | (k', v') :: rest, k, v =>
    if k' = k then (k, v) :: rest else (k', v') :: mapSet rest k v

/-- Split a list at the first occurrence of `ch`: Go `strings.Cut`.
The second component is `none` when `ch` does not occur. -/
def cutFirst (ch : Char) : List Char → List Char × Option (List Char)
  | [] => ([], none)
  | c :: rest =>
    if c = ch then ([], some rest)
    else
      let (a, b) := cutFirst ch rest
      (c :: a, b)

/-- Split a list at the last occurrence of `ch` (Go `strings.LastIndex`):
`l = before ++ [ch] ++ after` with `ch ∉ after`. -/
def splitAtLast (ch : Char) : List Char → Option (List Char × List Char)
  | [] => none
  | c :: rest =>
    match splitAtLast ch rest with
    | some (b, a) => some (c :: b, a)
    | none => if c = ch then some ([], rest) else none

/-! Standard base64 (RFC 4648, with `=` padding), as used by Go's
`encoding/base64.StdEncoding`.  Bytes are naturals below 256. -/

/-- The standard base64 alphabet. -/
def b64Alphabet : List Char :=
  "ABCDEFGHIJKLMNOPQRSTUVWXYZabcdefghijklmnopqrstuvwxyz0123456789+/".data

/-- Character for a six-bit value. -/
def b64Char (n : Nat) : Char := b64Alphabet.getD n '?'

/-- Index of a character in the base64 alphabet. -/
def b64Index (c : Char) : Option Nat := b64Alphabet.indexOf? c

/-- `base64.StdEncoding.EncodeToString`: encode a byte sequence, three
bytes to four characters, padding the final group with `=`. -/
def base64encode : List Nat → List Char
  | [] => []
  | [a] => [b64Char (a / 4), b64Char (a % 4 * 16), '=', '=']
  | [a, b] => [b64Char (a / 4), b64Char (a % 4 * 16 + b / 16), b64Char (b % 16 * 4), '=']
  | a :: b :: d :: rest =>
    b64Char (a / 4) :: b64Char (a % 4 * 16 + b / 16) ::
      b64Char (b % 16 * 4 + d / 64) :: b64Char (d % 64) :: base64encode rest

/-- Standard base64 decoding of a padded character sequence. -/
def base64decode : List Char → Option (List Nat)
  | [] => some []
  | w :: x :: y :: z :: rest =>
    match b64Index w, b64Index x with
    | some s1, some s2 =>
      if y = '=' ∧ z = '=' ∧ rest = [] then some [s1 * 4 + s2 / 16]
      else
        match b64Index y with
        | some s3 =>
          if z = '=' ∧ rest = [] then some [s1 * 4 + s2 / 16, s2 % 16 * 16 + s3 / 4]
          else
            match b64Index z, base64decode rest with
            | some s4, some tl =>
              some ((s1 * 4 + s2 / 16) :: (s2 % 16 * 16 + s3 / 4) :: (s3 % 4 * 64 + s4) :: tl)
            | _, _ => none
        | none => none
    | _, _ => none
  | _ => none

/-- The standard UTF-8 encoding of one code point (1–4 bytes), the
encoding Go strings hold. -/
def utf8Bytes (c : Char) : List Nat :=
  let n := c.toNat
  if n < 128 then [n]
  else if n < 2048 then [192 + n / 64, 128 + n % 64]
  else if n < 65536 then [224 + n / 4096, 128 + n / 64 % 64, 128 + n % 64]
  else [240 + n / 262144, 128 + n / 4096 % 64, 128 + n / 64 % 64, 128 + n % 64]

/-- The UTF-8 bytes of a string, as naturals (Go strings are byte slices
holding UTF-8; `[]byte(s)` is exactly this). -/
def strBytes (s : String) : List Nat := (s.data.map utf8Bytes).flatten

/-- Byte-wise lexicographic comparison (what Go's `sort.Strings` uses; on
valid UTF-8 it coincides with code-point order). -/
def lexLe : List Char → List Char → Bool
  | [], _ => true
  | _ :: _, [] => false
  | a :: as, b :: bs =>
    if a.toNat < b.toNat then true
    else if b.toNat < a.toNat then false
    else lexLe as bs

/-- Insert into a sorted list (structural insertion sort, standing in for
Go's `sort.Strings` over the key list — the keys of a `url.Values` map are
distinct, so any comparison sort yields the same order). -/
def insertSorted {α : Type} (le : α → α → Bool) (x : α) : List α → List α
  | [] => [x]
  | y :: ys => if le x y then x :: y :: ys else y :: insertSorted le x ys

/-- Sort by a boolean comparison. -/
def sortByLe {α : Type} (le : α → α → Bool) : List α → List α
  | [] => []
  | x :: xs => insertSorted le x (sortByLe le xs)

/-- Base64 of a string's bytes, as a string (Go
`base64.StdEncoding.EncodeToString([]byte(s))`). -/
def b64encodeStr (s : String) : String := String.mk (base64encode (strBytes s))

/-! The URL model: the components of a Go `net/url.URL` that this code base
uses, Go's `url.Parse` (restricted to scheme, authority with port
validation, path and query; user info, fragments and percent-unescaping of
paths are outside the model) and Go's `URL.ResolveReference`. -/

/-- A parsed URL.  `opq` holds Go's opaque part (scheme-relative
non-rooted remainder, as for `mailto:x`). -/
structure URL where
  scheme : String
  opq : String
  host : String
  path : String
  rawQuery : String
deriving DecidableEq, Repr

/-- Go `getScheme`: scan for a scheme terminated by `:`; a leading digit,
`+`, `-`, `.` or any other character before a `:` means no scheme. -/
def getSchemeAux : List Char → List Char → Except String (List Char × List Char)
  | acc, [] => .ok ([], acc.reverse)
  | acc, c :: rest =>
    if ('a' ≤ c ∧ c ≤ 'z') ∨ ('A' ≤ c ∧ c ≤ 'Z') then getSchemeAux (c :: acc) rest
    else if ('0' ≤ c ∧ c ≤ '9') ∨ c = '+' ∨ c = '-' ∨ c = '.' then
      if acc = [] then .ok ([], c :: rest) else getSchemeAux (c :: acc) rest
    else if c = ':' then
      if acc = [] then .error "missing protocol scheme"
      else .ok (acc.reverse, rest)
    else .ok ([], acc.reverse ++ c :: rest)

/-- Go `getScheme`. -/
def getScheme (l : List Char) : Except String (List Char × List Char) :=
  getSchemeAux [] l

/-- Are all characters decimal digits? -/
def digitsOnly : List Char → Bool
  | [] => true
  | c :: rest => if '0' ≤ c ∧ c ≤ '9' then digitsOnly rest else false

/-- Go `validOptionalPort`: empty, or `:` followed by digits only. -/
def validOptionalPort : List Char → Bool
  | [] => true
  | c :: rest => if c = ':' then digitsOnly rest else false

/-- Go `parseHost`, restricted to port validation: for a bracketed
(IPv6-style) host the part after the closing `]` must be a valid optional
port; otherwise the part from the last `:` must be. -/
def parseHost (host : List Char) : Except String (List Char) :=
  match host with
  | '[' :: _ =>
    match splitAtLast ']' host with
    | none => .error "missing ']' in host"
    | some (_, after) =>
      if validOptionalPort after then .ok host
      else .error ("invalid port " ++ String.mk after ++ " after host")
  | _ =>
    match splitAtLast ':' host with
    | some (_, after) =>
      if validOptionalPort (':' :: after) then .ok host
      else .error ("invalid port :" ++ String.mk after ++ " after host")
    | none => .ok host

/-- Go `url.Parse` (without fragments, user info and escaping checks):
cut the query at the first `?`, extract a scheme, then either an opaque
part (scheme present, remainder not starting with `/`), an authority
(`//host[:port]` with the port validated) plus rooted path, or a bare
path. -/
def urlParse (s : String) : Except String URL :=
  let l := (cutFirst '#' s.data).1
  let (rest0, q) := cutFirst '?' l
  let rawQuery := String.mk (q.getD [])
  match getScheme rest0 with
  | .error e => .error e
  | .ok (sch, rest) =>
    let scheme := String.mk sch
    if sch ≠ [] ∧ ¬ leadsList ['/'] rest then
      .ok { scheme := scheme, opq := String.mk rest, host := "", path := "", rawQuery := rawQuery }
    else if leadsList ['/', '/'] rest then
      let (authority, after) := cutFirst '/' (rest.drop 2)
      let path : List Char :=
        match after with
        | none => []
        | some p => '/' :: p
      match parseHost authority with
      | .error e => .error e
      | .ok host =>
        .ok { scheme := scheme, opq := "", host := String.mk host,
              path := String.mk path, rawQuery := rawQuery }
    else
      .ok { scheme := scheme, opq := "", host := "", path := String.mk rest,
            rawQuery := rawQuery }

/-- `base[:strings.LastIndex(base, "/")+1]`: everything up to and
including the last slash (empty when there is no slash). -/
def lastSlashCut (base : List Char) : List Char :=
  match splitAtLast '/' base with
  | some (before, _) => before ++ ['/']
  | none => []

/-- The segment-stack loop of Go `resolvePath`: `.` is dropped, `..` pops,
anything else is pushed. -/
def goCleanSegments (src : List (List Char)) : List (List Char) :=
  src.foldl
    (fun dst elem =>
      if elem = ['.'] then dst
      else if elem = ['.', '.'] then dst.dropLast
      else dst ++ [elem])
    []

/-- Go `strings.TrimPrefix(s, "/")` on character lists. -/
def trimLeadSlash : List Char → List Char
  | '/' :: rest => rest
  | l => l

/-- Go `net/url.resolvePath`: merge `ref` against `base` (replacing the
last segment of `base` unless `ref` is rooted or empty), then remove dot
segments with a segment stack, append a trailing slash when the final
segment was a dot, and force a leading slash. -/
def resolvePath (base ref : List Char) : List Char :=
  let full :=
    if ref = [] then base
    else if ¬ leadsList ['/'] ref then lastSlashCut base ++ ref
    else ref
  if full = [] then []
  else
    let src := splitOnSep '/' full
    let dst := goCleanSegments src
    let dst :=
      if src.getLast? = some ['.'] ∨ src.getLast? = some ['.', '.'] then dst ++ [[]] else dst
    '/' :: trimLeadSlash (joinSep '/' dst)

/-- Go `URL.ResolveReference` on the modelled components. -/
def resolveReference (u ref : URL) : URL :=
  let scheme := if ref.scheme = "" then u.scheme else ref.scheme
  if ref.scheme ≠ "" ∨ ref.host ≠ "" then
    { scheme := scheme, opq := ref.opq, host := ref.host,
      path := String.mk (resolvePath ref.path.data []), rawQuery := ref.rawQuery }
  else if ref.opq ≠ "" then
    { scheme := scheme, opq := ref.opq, host := "", path := "", rawQuery := ref.rawQuery }
  else
    { scheme := scheme, opq := "", host := u.host,
      path := String.mk (resolvePath u.path.data ref.path.data),
      rawQuery := if ref.path = "" ∧ ref.rawQuery = "" then u.rawQuery else ref.rawQuery }

/-! The specification side of URL resolution: RFC 3986 §5.3 ("standard
URL-resolution rules"), written from the RFC's pseudocode, to be compared
with `resolveReference` above. -/

/-- RFC 3986 §5.3.4 `remove_dot_segments` for a rooted remainder,
transliterated at path-segment granularity: every input segment carries an
implicit leading `/`; the output buffer is a list of chunks (segment plus
its leading `/`), so case C's "remove the last segment and its preceding
`/`" is exactly `dropLast`.  A bare final `/.` or `/..` leaves `/` in the
input (cases B and C), which case E then moves to the output. -/
def rfcSlashPhase : List (List Char) → List (List Char) → List (List Char)
  | [], out => out
  | s :: rest, out =>
    if s = ['.'] then
      if rest = [] then out ++ [['/']] else rfcSlashPhase rest out
    else if s = ['.', '.'] then
      if rest = [] then out.dropLast ++ [['/']] else rfcSlashPhase rest out.dropLast
    else rfcSlashPhase rest (out ++ [('/' :: s)])

/-- RFC 3986 §5.3.4 for a path without a leading slash: case A removes a
leading `./` or `../`, case D removes a bare final `.` or `..`, and
otherwise case E moves the (slash-less) first segment to the output before
the rooted phase takes over. -/
def rfcRelPhase : List (List Char) → List Char
  | [] => []
  | s :: rest =>
    if s = ['.'] ∨ s = ['.', '.'] then
      match rest with
      | [] => []
      | _ => rfcRelPhase rest
    else (rfcSlashPhase rest [s]).flatten

/-- RFC 3986 §5.3.4 `remove_dot_segments`. -/
def rfcRemoveDotSegments (p : String) : String :=
  match p.data with
  | [] => ""
  | '/' :: rest => String.mk (rfcSlashPhase (splitOnSep '/' rest) []).flatten
  | l => String.mk (rfcRelPhase (splitOnSep '/' l))

/-- RFC 3986 §5.3.3 `merge`: with a base authority and an empty base path
the merged path is `/` plus the reference path, otherwise the reference
path replaces everything after the base path's last `/`. -/
def rfcMergePaths (base : URL) (refPath : String) : String :=
  if base.host ≠ "" ∧ base.path = "" then "/" ++ refPath
  else String.mk (lastSlashCut base.path.data) ++ refPath

/-- RFC 3986 §5.3.2 "transform references" (fragments and the RFC's
undefined/empty distinction for queries are outside the model; the RFC has
no opaque component, so `opq` is always empty here). -/
def rfcResolve (base r : URL) : URL :=
  if r.scheme ≠ "" then
    { scheme := r.scheme, opq := "", host := r.host,
      path := rfcRemoveDotSegments r.path, rawQuery := r.rawQuery }
  else if r.host ≠ "" then
    { scheme := base.scheme, opq := "", host := r.host,
      path := rfcRemoveDotSegments r.path, rawQuery := r.rawQuery }
  else if r.path = "" then
    { scheme := base.scheme, opq := "", host := base.host, path := base.path,
      rawQuery := if r.rawQuery ≠ "" then r.rawQuery else base.rawQuery }
  else
    { scheme := base.scheme, opq := "", host := base.host,
      path :=
        if leadsList ['/'] r.path.data then rfcRemoveDotSegments r.path
        else rfcRemoveDotSegments (rfcMergePaths base r.path),
      rawQuery := r.rawQuery }

/-! Query encoding: Go `url.QueryEscape`, `url.Values` with `Add`,
`Encode` (sorted by key) and `Get`, and `url.ParseQuery`. -/

/-- Upper-case hexadecimal digit. -/
def hexDigit (n : Nat) : Char := "0123456789ABCDEF".data.getD n '0'

/-- Is the byte unreserved for query escaping (alphanumeric or
`-`, `_`, `.`, `~`)? -/
def isUnreservedByte (b : Nat) : Bool :=
  decide ((65 ≤ b ∧ b ≤ 90) ∨ (97 ≤ b ∧ b ≤ 122) ∨ (48 ≤ b ∧ b ≤ 57) ∨
    b = 45 ∨ b = 95 ∨ b = 46 ∨ b = 126)

/-- Escape one byte for a query component: space (byte 32) becomes `+`,
unreserved bytes stand for themselves, anything else becomes `%XX`. -/
def queryEscapeByte (b : Nat) : List Char :=
  if b = 32 then ['+']
  else if isUnreservedByte b then [Char.ofNat b]
  else ['%', hexDigit (b / 16), hexDigit (b % 16)]

/-- Go `url.QueryEscape`: escape each UTF-8 byte of the string. -/
def queryEscape (s : String) : String :=
  String.mk ((strBytes s).map queryEscapeByte).flatten

/-- Go `url.Values`: an ordered key to value-list mapping. -/
abbrev Values := List (String × List String)

/-- `Values.Add`: append the value under the key. -/
def valuesAdd : List (String × List String) → String → String → List (String × List String)
  | [], k, v => [(k, [v])]
  | (k', vs) :: rest, k, v =>
    if k' = k then (k', vs ++ [v]) :: rest else (k', vs) :: valuesAdd rest k v

/-- Add every pair of a query mapping (the `for key, val := range query`
loop with `q.Add(key, val)`). -/
def valuesAddAll (vs : Values) (q : List (String × String)) : Values :=
  q.foldl (fun acc kv => valuesAdd acc kv.1 kv.2) vs

/-- One `k=v` piece of an encoded query. -/
def encodePiece (k v : String) : List Char :=
  (queryEscape k).data ++ '=' :: (queryEscape v).data

/-- `Values.Encode`: keys sorted, each value rendered as
`escape(k)=escape(v)`, pieces joined with `&`. -/
def valuesEncode (vs : Values) : String :=
  let sorted := sortByLe (fun a b => lexLe a.1.data b.1.data) vs
  String.mk (joinSep '&' (sorted.map (fun kv => kv.2.map (encodePiece kv.1))).flatten)

/-- A key/value pair is present in a `Values` mapping. -/
def valuesHas (vs : Values) (k v : String) : Prop := ∃ e ∈ vs, e.1 = k ∧ v ∈ e.2

/-- Value of a hexadecimal digit character. -/
def hexVal (c : Char) : Option Nat :=
  if '0' ≤ c ∧ c ≤ '9' then some (c.toNat - 48)
  else if 'a' ≤ c ∧ c ≤ 'f' then some (c.toNat - 87)
  else if 'A' ≤ c ∧ c ≤ 'F' then some (c.toNat - 55)
  else none

/-- Go `url.QueryUnescape` at character granularity: `+` becomes a space,
`%XX` becomes the character with that code, a malformed `%` fails. -/
def queryUnescapeChars : List Char → Option (List Char)
  | [] => some []
  | '%' :: a :: b :: rest =>
    match hexVal a, hexVal b with
    | some ha, some hb => (queryUnescapeChars rest).map (fun t => Char.ofNat (ha * 16 + hb) :: t)
    | _, _ => none
  | '%' :: _ => none
  | '+' :: rest => (queryUnescapeChars rest).map (fun t => ' ' :: t)
  | c :: rest => (queryUnescapeChars rest).map (fun t => c :: t)

/-- Parse one `k=v` piece of a raw query; empty pieces, pieces containing
`;` and pieces that fail to unescape are skipped (Go records the error and
`URL.Query()` drops it). -/
def parseQueryPiece (piece : List Char) : Option (String × String) :=
  if piece = [] ∨ piece.contains ';' then none
  else
    let (k, v) := cutFirst '=' piece
    match queryUnescapeChars k, queryUnescapeChars (v.getD []) with
    | some k', some v' => some (String.mk k', String.mk v')
    | _, _ => none

/-- Go `url.ParseQuery` as used by `URL.Query()`. -/
def parseQueryValues (q : String) : Values :=
  (splitOnSep '&' q.data).foldl
    (fun acc piece =>
      match parseQueryPiece piece with
      | some (k, v) => valuesAdd acc k v
      | none => acc)
    []

/-- `Values.Get`: the first value under the key, or `""`. -/
def valuesGet (vs : Values) (k : String) : String :=
  match vs.find? (fun kv => kv.1 = k) with
  | some (_, v :: _) => v
  | _ => ""

/-- Go `strings.ReplaceAll(s, "+", "%20")` on character lists (the
pattern is a single character, so the replacement is character-wise). -/
def replacePlusChars : List Char → List Char
  | [] => []
  | c :: rest => (if c = '+' then ['%', '2', '0'] else [c]) ++ replacePlusChars rest

/-- Is an error value (as returned by the typed request functions) an
unexpected-status error?  Both variants format it with the fixed prelude
`unexpected status code:`, and no other error message of the client layer
starts that way. -/
def isUnexpectedStatusErr : Option String → Bool
  | some s => leadsList "unexpected status code:".data s.data
  | none => false

/-- An `*http.Response` as observed by the client: the status code
together with the outcome of `io.ReadAll` on its body. -/
structure Response where
  statusCode : Int
  body : Except String String

/-- An outgoing `*http.Request` as a transport sees it. -/
structure HTTPRequest where
  method : String
  url : URL
  header : List (String × String)
  body : Option String

/-- `SetHeaders`: apply `req.Header.Set` for each entry of the mapping. -/
def setHeaders (base : List (String × String)) (hs : List (String × String)) :
    List (String × String) :=
  hs.foldl (fun acc kv => mapSet acc kv.1 kv.2) base

/-! The `internal/client` package (request.go): `AuthType`, `setAuth`,
`parseBasicAuth`, and the generic typed `Get` and `Post` over the
`HTTPRequester` capability. -/

namespace ReqClient

/-- `client.AuthType` (a Go `int`): `AuthTypeToken`, `AuthTypeBearer`,
`AuthTypeBasic`; `other` stands for any further integer value, on which
the `switch` in `setAuth` does nothing. -/
inductive AuthType
  | token
  | bearer
  | basic
  | other (n : Int)
deriving DecidableEq

/-- The `HTTPRequester` capability:
`Request(ctx, log, method, url, path, header, query, body)` with context
and logger omitted. -/
def Requester :=
  String → String → String → List (String × String) → List (String × String) →
    Option String → Except String Response

/-- `parseBasicAuth`: the credential must split on `:` into exactly
`basicAuthCredentialParts = 2` parts; it is returned unchanged. -/
def parseBasicAuth (credential : String) : Except String String :=
  if (splitOnSep ':' credential.data).length = 2 then .ok credential
  else .error "invalid basic auth credential"

/-- `setAuth`: a missing credential only logs ("No credential provided")
and sets nothing; otherwise the `Authorization` header is set per scheme,
with `Basic` validating and base64-encoding the credential. -/
def setAuth (authType : AuthType) (credential : Option String)
    (header : List (String × String)) : Except String (List (String × String)) :=
  match credential with
  | none => .ok header
  | some cred =>
    match authType with
    | .token => .ok (mapSet header "Authorization" ("Token " ++ cred))
    | .bearer => .ok (mapSet header "Authorization" ("Bearer " ++ cred))
    | .basic =>
      match parseBasicAuth cred with
      | .error e => .error ("failed to parse basic auth: " ++ e)
      | .ok c => .ok (mapSet header "Authorization" ("Basic " ++ b64encodeStr c))
    | .other _ => .ok header

/-- `client.Get[T]`.  `unmarshal` stands for `json.Unmarshal` into `T`.
Returns `(resp, code, err)`.  When `setAuth` fails the Go source formats
`fmt.Errorf("failed to set auth: %w", err)` over the named return `err`,
which is still nil at that point (not over `aErr`), so the returned error
is the fixed string below and the cause is dropped. -/
def Get {T : Type} (c : Requester) (targetURL path : String)
    (query : List (String × String)) (authType : AuthType) (credential : Option String)
    (unmarshal : String → Except String T) : Option T × Int × Option String :=
  let header := [("Accept", "application/json")]
  match setAuth authType credential header with
  | .error _ => (none, 0, some "failed to set auth: %!w(<nil>)")
  | .ok header =>
    match c "GET" targetURL path header query none with
    | .error e => (none, 500, some ("failed to send request: " ++ e))
    | .ok r =>
      if r.statusCode ≠ 200 then
        (none, r.statusCode, some ("unexpected status code: " ++ toString r.statusCode))
      else
        match r.body with
        | .error e => (none, 500, some ("failed to read response body: " ++ e))
        | .ok b =>
          match unmarshal b with
          | .error e => (none, 500, some ("failed to unmarshal response body: " ++ e))
          | .ok v => (some v, r.statusCode, none)

/-- `client.Post[B, T]`.  `marshal` stands for `json.Marshal` of `B` and
`unmarshal` for `json.Unmarshal` into `T`.  Unlike `Get`, the auth failure
here correctly wraps `aErr`. -/
def Post {B T : Type} (c : Requester) (targetURL path : String)
    (query : List (String × String)) (body : B) (authType : AuthType)
    (credential : Option String) (marshal : B → Except String String)
    (unmarshal : String → Except String T) : Option T × Int × Option String :=
  let header := [("Accept", "application/json"), ("Content-Type", "application/json")]
  match setAuth authType credential header with
  | .error aErr => (none, 0, some ("failed to set auth: " ++ aErr))
  | .ok header =>
    match marshal body with
    | .error e => (none, 0, some ("failed to marshal request: " ++ e))
    | .ok jsonBody =>
      match c "POST" targetURL path header query (some jsonBody) with
      | .error e => (none, 500, some ("failed to send request: " ++ e))
      | .ok r =>
        if r.statusCode ≠ 200 then
          (none, r.statusCode, some ("unexpected status code: " ++ toString r.statusCode))
        else
          match r.body with
          | .error e => (none, 500, some ("failed to read response body: " ++ e))
          | .ok b =>
            match unmarshal b with
            | .error e => (none, 500, some ("failed to unmarshal response body: " ++ e))
            | .ok v => (some v, r.statusCode, none)

end ReqClient

/-! The `internal/client` request builder (client.go): `Client.Request`,
which resolves the target URL against the path by reference resolution and
attaches headers and the encoded query before invoking the transport.  The
second component of the result lists the transport calls made (`[]`
exactly when the transport was never invoked). -/

namespace CoreClient

/-- `Client.Request(ctx, log, method, targetURL, path, headers, query,
body)`.  `http.NewRequestWithContext` re-parses the resolved URL string;
it is modelled as building the request directly on the resolved URL. -/
def Request (doFn : HTTPRequest → Except String Response)
    (method targetURL path : String) (headers query : List (String × String))
    (body : Option String) : Except String Response × List HTTPRequest :=
  match urlParse targetURL with
  | .error e => (.error ("failed to parse URL: " ++ e), [])
  | .ok parsedURL =>
    match urlParse path with
    | .error e => (.error ("failed to parse path: " ++ e), [])
    | .ok refURL =>
      let u0 := resolveReference parsedURL refURL
      let q := valuesAddAll (parseQueryValues u0.rawQuery) query
      let u := { u0 with rawQuery := valuesEncode q }
      let req : HTTPRequest :=
        { method := method, url := u, header := setHeaders [] headers, body := body }
      match doFn req with
      | .error e => (.error ("failed to perform request: " ++ e), [req])
      | .ok resp => (.ok resp, [req])

end CoreClient

/-! The first stand-alone client variant (the one whose `Get` comment reads
"I need to encode space as %20 for query parameters, not +"). -/

namespace VariantB

/-- This variant's `AuthType` constants (`iota`): token, bearer, basic. -/
inductive AuthType
  | token
  | bearer
  | basic
deriving DecidableEq

/-- This variant's `Client`: auth type, parsed base URL, transport,
token. -/
structure Client where
  authType : AuthType
  baseURL : URL
  doFn : HTTPRequest → Except String Response
  token : String

/-- `Client.SetAuthType` on a header mapping: `token <t>` /
`Bearer <t>` into `Authorization`, or `req.SetBasicAuth(c.token, "")`
(base64 of `token + ":"`). -/
def Client.SetAuthType (c : Client) (h : List (String × String)) : List (String × String) :=
  match c.authType with
  | .token => mapSet h "Authorization" ("token " ++ c.token)
  | .bearer => mapSet h "Authorization" ("Bearer " ++ c.token)
  | .basic => mapSet h "Authorization" ("Basic " ++ b64encodeStr (c.token ++ ":"))

/-- This variant's `Client.Get(ctx, urlPath, query)`: build the request on
the given URL, set `Accept` and auth, add the query parameters and replace
every `+` of the encoded query by `%20`. -/
def Client.Get (c : Client) (urlPath : String) (query : List (String × String)) :
    Except String Response × List HTTPRequest :=
  match urlParse urlPath with
  | .error e => (.error ("failed to create request: " ++ e), [])
  | .ok u0 =>
    let header := c.SetAuthType (setHeaders [] [("Accept", "application/json")])
    let q := valuesAddAll (parseQueryValues u0.rawQuery) query
    let u := { u0 with rawQuery := String.mk (replacePlusChars (valuesEncode q).data) }
    let req : HTTPRequest := { method := "GET", url := u, header := header, body := none }
    match c.doFn req with
    | .error e => (.error ("failed to perform request: " ++ e), [req])
    | .ok resp => (.ok resp, [req])

end VariantB

/-! The second stand-alone client variant (the sketch holding the generic
`get`, `pagedGet`, `pagedGetGeneric` helpers and the paginators). -/

namespace VariantA

/-- This variant's `AuthType` constants (`iota`): `NoAuth`, `BasicAuth`,
`BearerToken`, `Token`. -/
inductive AuthType
  | noAuth
  | basicAuth
  | bearerToken
  | token
deriving DecidableEq

/-- This variant's `Client`: auth type, parsed base URL, transport,
token (logger omitted). -/
structure Client where
  authType : AuthType
  baseURL : URL
  doFn : HTTPRequest → Except String Response
  token : String

/-- `Client.SetAuth` on a header mapping: `req.SetBasicAuth("user",
c.token)` (base64 of `user:` plus the token), `Bearer <t>`, or the token
in `X-Auth-Token`. -/
def Client.SetAuth (c : Client) (h : List (String × String)) : List (String × String) :=
  match c.authType with
  | .basicAuth => mapSet h "Authorization" ("Basic " ++ b64encodeStr ("user:" ++ c.token))
  | .bearerToken => mapSet h "Authorization" ("Bearer " ++ c.token)
  | .token => mapSet h "X-Auth-Token" c.token
  | .noAuth => h

/-- This variant's `Client.Get(ctx, path, queryParams)`: resolve the path
against the base URL (`c.baseURL.Parse(path)`), set `Accept` and auth, add
the query parameters (encoded with `q.Encode()`, so spaces become `+`),
and invoke the transport. -/
def Client.Get (c : Client) (path : String) (queryParams : List (String × String)) :
    Except String Response × List HTTPRequest :=
  match urlParse path with
  | .error e => (.error ("failed to parse path: " ++ e), [])
  | .ok refURL =>
    let target := resolveReference c.baseURL refURL
    let header := c.SetAuth (setHeaders [] [("Accept", "application/json")])
    let q := valuesAddAll (parseQueryValues target.rawQuery) queryParams
    let u := { target with rawQuery := valuesEncode q }
    let req : HTTPRequest := { method := "GET", url := u, header := header, body := none }
    match c.doFn req with
    | .error e => (.error ("request failed: " ++ e), [req])
    | .ok resp => (.ok resp, [req])

/-- The fixed wire shape of one paginated page. -/
structure paginatedResponse (T : Type) where
  Items : List T
  NextPage : String
  TotalCount : Int

/-- The generic `get[T]`: issue `client.Get`, read the body, require a
2xx status, unmarshal. -/
def get {T : Type} (c : Client) (path : String) (queryParams : List (String × String))
    (unmarshal : String → Except String T) : Option T × Option String :=
  match (Client.Get c path queryParams).1 with
  | .error e => (none, some e)
  | .ok resp =>
    match resp.body with
    | .error e => (none, some ("failed to read response body: " ++ e))
    | .ok respBody =>
      if resp.statusCode < 200 ∨ 300 ≤ resp.statusCode then
        (none, some ("unexpected status code: " ++ toString resp.statusCode ++
          ", response: " ++ respBody))
      else
        match unmarshal respBody with
        | .error e => (none, some ("failed to unmarshal response body: " ++ e))
        | .ok v => (some v, none)

/-- `pagedGet[T]`: like `get` but decoding into `paginatedResponse[T]`
and wrapping transport-level failures with its own message. -/
def pagedGet {T : Type} (c : Client) (path : String) (queryParams : List (String × String))
    (unmarshal : String → Except String (paginatedResponse T)) :
    Option (paginatedResponse T) × Option String :=
  match (Client.Get c path queryParams).1 with
  | .error e => (none, some ("failed to make paged GET request: " ++ e))
  | .ok resp =>
    match resp.body with
    | .error e => (none, some ("failed to read response body: " ++ e))
    | .ok respBody =>
      if resp.statusCode < 200 ∨ 300 ≤ resp.statusCode then
        (none, some ("unexpected status code: " ++ toString resp.statusCode ++
          ", response: " ++ respBody))
      else
        match unmarshal respBody with
        | .error e => (none, some ("failed to unmarshal paged response body: " ++ e))
        | .ok v => (some v, none)

/-- `pagedGetGeneric[R]`: identical to `pagedGet` but decoding into an
arbitrary caller-chosen wire shape `R`. -/
def pagedGetGeneric {R : Type} (c : Client) (path : String)
    (queryParams : List (String × String)) (unmarshal : String → Except String R) :
    Option R × Option String :=
  match (Client.Get c path queryParams).1 with
  | .error e => (none, some ("failed to make paged GET request: " ++ e))
  | .ok resp =>
    match resp.body with
    | .error e => (none, some ("failed to read response body: " ++ e))
    | .ok respBody =>
      if resp.statusCode < 200 ∨ 300 ≤ resp.statusCode then
        (none, some ("unexpected status code: " ++ toString resp.statusCode ++
          ", response: " ++ respBody))
      else
        match unmarshal respBody with
        | .error e => (none, some ("failed to unmarshal paged response body: " ++ e))
        | .ok v => (some v, none)

/-- `paginate[T]`, with the supplied page-fetch function modelled as a
script: element `i` of `script` is the behaviour of the `i`-th call, as a
function of the query mapping it receives (the constant `path` argument is
folded into the script).  The Go loop runs until a page's `NextPage` is
empty or an error occurs; a run that exhausts the script without reaching
either is left uncharacterised (first component `none`), since the Go loop
would keep calling the fetch function.  The second component lists the
query mapping passed to each call that was made.  `nextPage` is the loop
variable, `""` at entry; it is written into the query under `"page"` only
when non-empty. -/
def paginate {T : Type}
    (script : List (List (String × String) → Except String (paginatedResponse T)))
    (query : List (String × String)) (nextPage : String) :
    Option (Except String (List T)) × List (List (String × String)) :=
  match script with
  | [] => (none, [])
  | f :: rest =>
    let query := if nextPage ≠ "" then mapSet query "page" nextPage else query
    match f query with
    | .error e => (some (.error ("failed to get page: " ++ e)), [query])
    | .ok pageResp =>
      if pageResp.NextPage = "" then (some (.ok pageResp.Items), [query])
      else
        match urlParse pageResp.NextPage with
        | .error e => (some (.error ("failed to parse next page URL: " ++ e)), [query])
        | .ok nextPageURL =>
          let np := valuesGet (parseQueryValues nextPageURL.rawQuery) "page"
          let (r, qs) := paginate rest query np
          (r.map (fun res => res.map (fun items => pageResp.Items ++ items)), query :: qs)

/-- The fetch script that serves a fixed list of pages in call order. -/
def pagesScript {T : Type} (pages : List (paginatedResponse T)) :
    List (List (String × String) → Except String (paginatedResponse T)) :=
  pages.map (fun p => fun _ => .ok p)

/-- The `page` value `paginate` extracts from a next-page URL: parse it
and take its `page` query value (empty when absent). -/
def extractPage (nextPage : String) : Except String String :=
  match urlParse nextPage with
  | .error e => .error e
  | .ok u => .ok (valuesGet (parseQueryValues u.rawQuery) "page")

/-- The query-update rule: the extracted `page` value enters the mapping
for the next call only when it is non-empty; otherwise the previous
mapping is reused unchanged. -/
def nextQuery (q : List (String × String)) (np : String) : List (String × String) :=
  if np ≠ "" then mapSet q "page" np else q

/-- The query mappings predicted for the successive calls of `paginate`
over a fixed page list, starting from mapping `q`. -/
def queryTrace {T : Type} (q : List (String × String)) :
    List (paginatedResponse T) → List (List (String × String))
  | [] => []
  | p :: rest =>
    q :: (match extractPage p.NextPage with
      | .ok np => queryTrace (nextQuery q np) rest
      | .error _ => [])

end VariantA

/-! The photos resource client (internal/photos). -/

namespace Photos

/-- `photos.Photo`. -/
structure Photo where
  albumID : Int
  id : Int
  title : String
  url : String
  thumbnailURL : String
deriving DecidableEq

/-- `photos.PhotoBaseURL`. -/
def PhotoBaseURL : String := "https://jsonplaceholder.typicode.com"

/-- `photos.photoPath`. -/
def photoPath : String := "/photos"

/-- `photos.PhotoClient`: base URL, auth type, transport (logger
omitted). -/
structure PhotoClient where
  baseURL : String
  authType : ReqClient.AuthType
  httpClient : ReqClient.Requester

/-- `PhotoClient.GetPhotos(ctx, id)`: query `albumId=<id>`, call
`client.Get[Photo]` with a nil credential, drop the status code, pass any
error through. -/
def PhotoClient.GetPhotos (c : PhotoClient) (unmarshal : String → Except String Photo)
    (id : Int) : Option Photo × Option String :=
  let query := [("albumId", toString id)]
  match ReqClient.Get c.httpClient c.baseURL photoPath query c.authType none unmarshal with
  | (_, _, some e) => (none, some e)
  | (photo, _, none) => (photo, none)

/-- Modelled from the spec: the photos `Service`'s concurrent fetch
orchestrator (`GetPhotosConcurrently`, spec §4.6 `FetchAllConcurrently`)
is not present under src — only its test (photos_test.go) and its callers
are.  Per the spec, it launches one fetch per id as an independent
concurrent unit, collects only the successful results through a safe
hand-off, and logs and drops each failure without aborting the others or
failing overall.  Completion order is modelled by an arbitrary
permutation `sched` of the input ids; the first component is the collected
successes in completion order and the second the logged per-id failures. -/
def fetchAllConcurrently {α : Type} (fetch : Int → Except String α) (sched : List Int) :
    List α × List (Int × String) :=
  (sched.filterMap (fun i => (fetch i).toOption),
   sched.filterMap (fun i =>
     match fetch i with
     | .error e => some (i, e)
     | .ok _ => none))

end Photos

/-! Helper lemmas. -/

theorem splitOnSep_ne_nil (sep : Char) : ∀ l : List Char, splitOnSep sep l ≠ []
  | [] => by simp [splitOnSep]
  | c :: rest => by
    unfold splitOnSep
    by_cases h : c = sep
    · simp [h]
    · simp only [h, if_false]
      cases hs : splitOnSep sep rest <;> simp

/-- Splitting and re-joining on the same separator is the identity. -/
theorem joinSep_splitOnSep (sep : Char) : ∀ l : List Char, joinSep sep (splitOnSep sep l) = l
  | [] => by simp [splitOnSep, joinSep]
  | c :: rest => by
    unfold splitOnSep
    by_cases h : c = sep
    · have ih := joinSep_splitOnSep sep rest
      subst h
      simp only [if_pos rfl]
      cases hs : splitOnSep c rest with
      | nil => exact absurd hs (splitOnSep_ne_nil c rest)
      | cons s ss =>
        rw [hs] at ih
        simp [joinSep, ih]
    · simp only [h, if_false]
      have ih := joinSep_splitOnSep sep rest
      cases hs : splitOnSep sep rest with
      | nil => exact absurd hs (splitOnSep_ne_nil sep rest)
      | cons s ss =>
        rw [hs] at ih
        cases ss with
        | nil => simpa [joinSep] using ih
        | cons s2 ss2 => simpa [joinSep] using ih

theorem leadsList_append_self : ∀ x t : List Char, leadsList x (x ++ t) = true
  | [], _ => rfl
  | c :: rest, t => by simp [leadsList, leadsList_append_self rest t]

theorem occursIn_self_append (x t : List Char) : occursIn x (x ++ t) = true := by
  cases hx : x ++ t with
  | nil => simp [occursIn]; cases x <;> simp_all [leadsList]
  | cons c rest =>
    rw [occursIn, ← hx, leadsList_append_self]
    simp

theorem occursIn_append_right (x : List Char) :
    ∀ s t : List Char, occursIn x t = true → occursIn x (s ++ t) = true
  | [], _, h => h
  | c :: s, t, h => by
    rw [List.cons_append, occursIn, occursIn_append_right x s t h, Bool.or_true]

/-- `occursIn` captures contiguous containment. -/
theorem occursIn_iff (x h : List Char) :
    occursIn x h = true ↔ ∃ a b, h = a ++ x ++ b := by
  constructor
  · induction h with
    | nil =>
      intro hx
      cases x with
      | nil => exact ⟨[], [], rfl⟩
      | cons c rest => simp [occursIn, leadsList] at hx
    | cons c rest ih =>
      intro hx
      rw [occursIn, Bool.or_eq_true] at hx
      rcases hx with hx | hx
      · -- x leads c :: rest
        have : ∃ b, c :: rest = x ++ b := by
          clear ih
          induction x generalizing c rest with
          | nil => exact ⟨c :: rest, rfl⟩
          | cons y ys ihx =>
            rw [leadsList, Bool.and_eq_true, decide_eq_true_eq] at hx
            obtain ⟨rfl, htl⟩ := hx
            cases rest with
            | nil => cases ys with
              | nil => exact ⟨[], rfl⟩
              | cons z zs => simp [leadsList] at htl
            | cons d ds =>
              obtain ⟨b, hb⟩ := ihx d ds htl
              exact ⟨b, by simp [hb]⟩
        obtain ⟨b, hb⟩ := this
        exact ⟨[], b, by simpa using hb⟩
      · obtain ⟨a, b, hab⟩ := ih hx
        exact ⟨c :: a, b, by simp [hab]⟩
  · rintro ⟨a, b, rfl⟩
    rw [List.append_assoc]
    exact occursIn_append_right x a (x ++ b) (occursIn_self_append x b)

/-- A member of the piece list occurs in the `sep`-joined rendering. -/
theorem occursIn_joinSep (sep : Char) (p : List Char) :
    ∀ ps : List (List Char), p ∈ ps → occursIn p (joinSep sep ps) = true := by
  intro ps
  induction ps with
  | nil => intro h; cases h
  | cons s ss ih =>
    intro hmem
    rcases List.mem_cons.mp hmem with rfl | hmem
    · cases ss with
      | nil => simpa [joinSep] using occursIn_self_append p []
      | cons s2 ss2 =>
        have hj : joinSep sep (p :: s2 :: ss2) = p ++ sep :: joinSep sep (s2 :: ss2) := rfl
        rw [hj]
        exact occursIn_self_append p _
    · cases ss with
      | nil => cases hmem
      | cons s2 ss2 =>
        have hj : joinSep sep (s :: s2 :: ss2) = s ++ sep :: joinSep sep (s2 :: ss2) := rfl
        rw [hj]
        refine occursIn_append_right p s _ ?_
        rw [show sep :: joinSep sep (s2 :: ss2) = [sep] ++ joinSep sep (s2 :: ss2) from rfl]
        exact occursIn_append_right p [sep] _ (ih hmem)

theorem replacePlusChars_append :
    ∀ a b : List Char, replacePlusChars (a ++ b) = replacePlusChars a ++ replacePlusChars b
  | [], _ => rfl
  | c :: a, b => by
    rw [List.cons_append, replacePlusChars, replacePlusChars, replacePlusChars_append a b,
      List.append_assoc]

theorem b64Index_b64Char : ∀ n, n < 64 → b64Index (b64Char n) = some n := by decide

theorem b64Char_ne_eq : ∀ n, n < 64 → b64Char n ≠ '=' := by decide

/-- Base64 round-trip: decoding an encoded byte sequence recovers it. -/
theorem base64decode_base64encode :
    ∀ bs : List Nat, (∀ b ∈ bs, b < 256) → base64decode (base64encode bs) = some bs
  | [], _ => rfl
  | [a], h => by
    have ha : a < 256 := h a (by simp)
    rw [base64encode, base64decode]
    rw [b64Index_b64Char _ (by omega), b64Index_b64Char _ (by omega)]
    simp only [and_self, if_pos, Option.some.injEq, List.cons.injEq, and_true]
    omega
  | [a, b], h => by
    have ha : a < 256 := h a (by simp)
    have hb : b < 256 := h b (by simp)
    rw [base64encode, base64decode]
    rw [b64Index_b64Char _ (by omega), b64Index_b64Char _ (by omega),
      b64Index_b64Char _ (by omega)]
    simp only [b64Char_ne_eq (b % 16 * 4) (by omega), false_and, if_false, and_self, if_pos,
      Option.some.injEq, List.cons.injEq, and_true]
    refine ⟨by omega, by omega⟩
  | a :: b :: d :: e :: rest, h => by
    have ha : a < 256 := h a (by simp)
    have hb : b < 256 := h b (by simp)
    have hd : d < 256 := h d (by simp)
    have ih := base64decode_base64encode (e :: rest) (by
      intro x hx; exact h x (by simp at hx ⊢; tauto))
    rw [base64encode, base64decode]
    rw [b64Index_b64Char _ (by omega), b64Index_b64Char _ (by omega),
      b64Index_b64Char _ (by omega), b64Index_b64Char _ (by omega)]
    have hy := b64Char_ne_eq (b % 16 * 4 + d / 64) (by omega)
    have hz := b64Char_ne_eq (d % 64) (by omega)
    simp only [hy, hz, false_and, and_false, if_false, ih, Option.some.injEq, List.cons.injEq]
    exact ⟨by omega, by omega, by omega, trivial⟩
  | [a, b, d], h => by
    have ha : a < 256 := h a (by simp)
    have hb : b < 256 := h b (by simp)
    have hd : d < 256 := h d (by simp)
    rw [base64encode, base64decode]
    rw [b64Index_b64Char _ (by omega), b64Index_b64Char _ (by omega),
      b64Index_b64Char _ (by omega), b64Index_b64Char _ (by omega)]
    have hy := b64Char_ne_eq (b % 16 * 4 + d / 64) (by omega)
    have hz := b64Char_ne_eq (d % 64) (by omega)
    simp only [hy, hz, false_and, and_false, if_false, base64decode, Option.some.injEq,
      List.cons.injEq]
    exact ⟨by omega, by omega, by omega, trivial⟩

theorem char_toNat_lt (c : Char) : c.toNat < 1114112 := by
  have h : c.val.toNat.isValidChar := c.valid
  rcases h with h | ⟨_, h⟩
  · exact lt_trans h (by norm_num)
  · exact h

theorem utf8Bytes_lt (c : Char) : ∀ b ∈ utf8Bytes c, b < 256 := by
  intro b hb
  have hc := char_toNat_lt c
  by_cases h1 : c.toNat < 128
  · simp [utf8Bytes, h1] at hb; omega
  · by_cases h2 : c.toNat < 2048
    · simp [utf8Bytes, h1, h2] at hb
      rcases hb with rfl | rfl <;> omega
    · by_cases h3 : c.toNat < 65536
      · simp [utf8Bytes, h1, h2, h3] at hb
        rcases hb with rfl | rfl | rfl <;> omega
      · simp [utf8Bytes, h1, h2, h3] at hb
        rcases hb with rfl | rfl | rfl | rfl <;> omega

theorem strBytes_lt (s : String) : ∀ b ∈ strBytes s, b < 256 := by
  intro b hb
  simp only [strBytes, List.mem_flatten, List.mem_map] at hb
  obtain ⟨l, ⟨c, _, rfl⟩, hbl⟩ := hb
  exact utf8Bytes_lt c b hbl

theorem leadsList_head_ne {a b : Char} (h : ¬ a = b) (as bs : List Char) :
    leadsList (a :: as) (b :: bs) = false := by
  simp [leadsList, h]

/-- An error message starting with `f` (all the `failed to ...` wraps) is
not an unexpected-status error. -/
theorem isUnexpected_append_f (pre e : String) (hpre : pre.data.head? = some 'f') :
    isUnexpectedStatusErr (some (pre ++ e)) = false := by
  show leadsList "unexpected status code:".data (pre ++ e).data = false
  cases hd : pre.data with
  | nil => simp [hd] at hpre
  | cons c rest =>
    rw [hd] at hpre
    simp only [List.head?_cons, Option.some.injEq] at hpre
    subst hpre
    rw [String.data_append, hd,
      show "unexpected status code:".data = 'u' :: "nexpected status code:".data from rfl]
    exact leadsList_head_ne (by decide) _ _

theorem isUnexpected_statusMsg (t : String) :
    isUnexpectedStatusErr (some ("unexpected status code: " ++ t)) = true := by
  show leadsList "unexpected status code:".data ("unexpected status code: " ++ t).data = true
  rw [String.data_append,
    show ("unexpected status code: ".data : List Char) =
      "unexpected status code:".data ++ [' '] from rfl,
    List.append_assoc]
  exact leadsList_append_self _ _

theorem isUnexpected_statusMsg2 (t r b : String) :
    isUnexpectedStatusErr (some ("unexpected status code: " ++ t ++ r ++ b)) = true := by
  show leadsList "unexpected status code:".data
    ("unexpected status code: " ++ t ++ r ++ b).data = true
  rw [String.data_append, String.data_append, String.data_append,
    show ("unexpected status code: ".data : List Char) =
      "unexpected status code:".data ++ [' '] from rfl]
  simp only [List.append_assoc]
  exact leadsList_append_self _ _

theorem occursIn_suffix (pre x : List Char) : occursIn x (pre ++ x) = true := by
  have h := occursIn_self_append x []
  rw [List.append_nil] at h
  exact occursIn_append_right x pre x h

theorem insertSorted_perm {α : Type} (le : α → α → Bool) (x : α) :
    ∀ l : List α, (insertSorted le x l).Perm (x :: l)
  | [] => List.Perm.refl _
  | y :: ys => by
    unfold insertSorted
    by_cases h : le x y = true
    · simp [h]
    · simp only [h, if_false]
      exact ((insertSorted_perm le x ys).cons y).trans (List.Perm.swap x y ys)

theorem sortByLe_perm {α : Type} (le : α → α → Bool) :
    ∀ l : List α, (sortByLe le l).Perm l
  | [] => List.Perm.refl _
  | x :: xs => (insertSorted_perm le x _).trans ((sortByLe_perm le xs).cons x)

theorem valuesAdd_has_self : ∀ (vs : Values) (k v : String), valuesHas (valuesAdd vs k v) k v
  | [], k, v => ⟨(k, [v]), by simp [valuesAdd], rfl, by simp⟩
  | (k0, vs0) :: rest, k, v => by
    unfold valuesAdd
    by_cases h : k0 = k
    · exact ⟨(k0, vs0 ++ [v]), by simp [if_pos h], h, by simp⟩
    · obtain ⟨e, he, hk, hv⟩ := valuesAdd_has_self rest k v
      exact ⟨e, by simp [if_neg h, he], hk, hv⟩

theorem valuesAdd_has_mono (k v : String) :
    ∀ (vs : Values) (k' v' : String), valuesHas vs k' v' → valuesHas (valuesAdd vs k v) k' v'
  | [], _, _, h => by
    obtain ⟨e, he, _⟩ := h
    cases he
  | (k0, vs0) :: rest, k', v', h => by
    obtain ⟨e, he, hk, hv⟩ := h
    unfold valuesAdd
    by_cases h0 : k0 = k
    · rcases List.mem_cons.mp he with rfl | he2
      · exact ⟨(k0, vs0 ++ [v]), by simp [if_pos h0], hk,
          List.mem_append_left _ hv⟩
      · exact ⟨e, by simp [if_pos h0, he2], hk, hv⟩
    · rcases List.mem_cons.mp he with rfl | he2
      · exact ⟨(k0, vs0), by simp [if_neg h0], hk, hv⟩
      · obtain ⟨e2, he2', hk2, hv2⟩ := valuesAdd_has_mono k v rest k' v' ⟨e, he2, hk, hv⟩
        exact ⟨e2, by simp [if_neg h0, he2'], hk2, hv2⟩

theorem valuesAddAll_has_mono (q : List (String × String)) :
    ∀ (vs : Values) (k' v' : String), valuesHas vs k' v' →
      valuesHas (valuesAddAll vs q) k' v' := by
  induction q with
  | nil => intro vs k' v' h; exact h
  | cons kv rest ih =>
    intro vs k' v' h
    exact ih (valuesAdd vs kv.1 kv.2) k' v' (valuesAdd_has_mono kv.1 kv.2 vs k' v' h)

theorem valuesAddAll_has (q : List (String × String)) :
    ∀ (vs : Values) (k v : String), (k, v) ∈ q → valuesHas (valuesAddAll vs q) k v := by
  induction q with
  | nil => intro vs k v h; cases h
  | cons kv rest ih =>
    intro vs k v h
    rcases List.mem_cons.mp h with h1 | h2
    · rw [← h1]
      exact valuesAddAll_has_mono rest (valuesAdd vs k v) k v (valuesAdd_has_self vs k v)
    · exact ih (valuesAdd vs kv.1 kv.2) k v h2

/-- Every present key/value pair appears in the encoded query string as
its `escape(k)=escape(v)` piece. -/
theorem valuesEncode_occurs (vs : Values) (k v : String) (h : valuesHas vs k v) :
    occursIn (encodePiece k v) (valuesEncode vs).data = true := by
  obtain ⟨e, he, hk, hv⟩ := h
  show occursIn (encodePiece k v)
    (joinSep '&'
      ((sortByLe (fun a b => lexLe a.1.data b.1.data) vs).map
        (fun kv => kv.2.map (encodePiece kv.1))).flatten) = true
  refine occursIn_joinSep '&' _ _ ?_
  rw [List.mem_flatten]
  refine ⟨e.2.map (encodePiece e.1), List.mem_map_of_mem _ ?_, ?_⟩
  · exact ((sortByLe_perm (fun a b => lexLe a.1.data b.1.data) vs).mem_iff).mpr he
  · rw [← hk]
    exact List.mem_map_of_mem _ hv

theorem occursIn_replacePlus (x h : List Char) (hx : occursIn x h = true) :
    occursIn (replacePlusChars x) (replacePlusChars h) = true := by
  obtain ⟨a, b, rfl⟩ := (occursIn_iff x h).mp hx
  rw [replacePlusChars_append, replacePlusChars_append]
  exact (occursIn_iff _ _).mpr ⟨replacePlusChars a, replacePlusChars b, rfl⟩

theorem splitOnSep_append (sep : Char) (y : List Char) :
    ∀ x : List Char, splitOnSep sep (x ++ sep :: y) = splitOnSep sep x ++ splitOnSep sep y
  | [] => by simp [splitOnSep]
  | c :: x => by
    by_cases h : c = sep
    · rw [List.cons_append, splitOnSep, if_pos h, splitOnSep_append sep y x,
        splitOnSep, if_pos h, List.cons_append]
    · rw [List.cons_append, splitOnSep, if_neg h, splitOnSep_append sep y x]
      rw [splitOnSep, if_neg h]
      cases hs : splitOnSep sep x with
      | nil => exact absurd hs (splitOnSep_ne_nil sep x)
      | cons s ss => simp

theorem splitAtLast_spec (ch : Char) :
    ∀ (l b a : List Char), splitAtLast ch l = some (b, a) → l = b ++ ch :: a
  | [], b, a, h => by simp [splitAtLast] at h
  | c :: rest, b, a, h => by
    rw [splitAtLast] at h
    cases hs : splitAtLast ch rest with
    | some ba =>
      obtain ⟨b1, a1⟩ := ba
      rw [hs] at h
      dsimp only at h
      simp only [Option.some.injEq, Prod.mk.injEq] at h
      obtain ⟨hb, ha⟩ := h
      have ih := splitAtLast_spec ch rest b1 a1 hs
      rw [← hb, ← ha, List.cons_append, ← ih]
    | none =>
      rw [hs] at h
      dsimp only at h
      by_cases hc : c = ch
      · simp only [if_pos hc, Option.some.injEq, Prod.mk.injEq] at h
        obtain ⟨rfl, rfl⟩ := h
        rw [hc]
        rfl
      · simp [if_neg hc] at h

theorem splitAtLast_none (ch : Char) :
    ∀ l : List Char, splitAtLast ch l = none → ch ∉ l
  | [], _ => by simp
  | c :: rest, h => by
    rw [splitAtLast] at h
    cases hs : splitAtLast ch rest with
    | some ba =>
      obtain ⟨b1, a1⟩ := ba
      rw [hs] at h
      simp at h
    | none =>
      rw [hs] at h
      dsimp only at h
      by_cases hc : c = ch
      · rw [if_pos hc] at h; cases h
      · intro hmem
        rcases List.mem_cons.mp hmem with h1 | h2
        · exact hc h1.symm
        · exact splitAtLast_none ch rest hs h2

theorem getLast?_mem {α : Type} : ∀ (l : List α) (a : α), l.getLast? = some a → a ∈ l
  | [], a, h => by simp at h
  | [x], a, h => by
    simp only [List.getLast?_singleton, Option.some.injEq] at h
    simp [h]
  | x :: y :: rest, a, h => by
    rw [List.getLast?_cons_cons] at h
    exact List.mem_cons_of_mem _ (getLast?_mem (y :: rest) a h)

theorem goClean_aux :
    ∀ (segs : List (List Char)), (∀ s ∈ segs, s ≠ ['.'] ∧ s ≠ ['.', '.']) →
      ∀ dst, List.foldl (fun dst elem =>
        if elem = ['.'] then dst
        else if elem = ['.', '.'] then dst.dropLast
        else dst ++ [elem]) dst segs = dst ++ segs
  | [], _, dst => by simp
  | s :: rest, h, dst => by
    have hs := h s (List.mem_cons_self _ _)
    rw [List.foldl_cons]
    rw [if_neg hs.1, if_neg hs.2,
      goClean_aux rest (fun x hx => h x (List.mem_cons_of_mem _ hx)) (dst ++ [s])]
    simp

theorem goCleanSegments_noDots (segs : List (List Char))
    (h : ∀ s ∈ segs, s ≠ ['.'] ∧ s ≠ ['.', '.']) : goCleanSegments segs = segs := by
  have hx := goClean_aux segs h []
  simpa [goCleanSegments] using hx

theorem rfcSlashPhase_noDots :
    ∀ (segs : List (List Char)), (∀ s ∈ segs, s ≠ ['.'] ∧ s ≠ ['.', '.']) →
      ∀ out, rfcSlashPhase segs out = out ++ segs.map (fun s => '/' :: s)
  | [], _, out => by simp [rfcSlashPhase]
  | s :: rest, h, out => by
    have hs := h s (List.mem_cons_self _ _)
    rw [rfcSlashPhase, if_neg hs.1, if_neg hs.2,
      rfcSlashPhase_noDots rest (fun x hx => h x (List.mem_cons_of_mem _ hx))
        (out ++ [('/' :: s)])]
    simp

theorem flatten_mapSlash :
    ∀ (s : List Char) (ss : List (List Char)),
      ((s :: ss).map (fun t => '/' :: t)).flatten = '/' :: joinSep '/' (s :: ss)
  | s, [] => by simp [joinSep]
  | s, s2 :: ss2 => by
    rw [List.map_cons, List.flatten_cons, flatten_mapSlash s2 ss2,
      show joinSep '/' (s :: s2 :: ss2) = s ++ '/' :: joinSep '/' (s2 :: ss2) from rfl]
    simp

theorem trimLeadSlash_of_not_slash (l : List Char) (h : leadsList ['/'] l = false) :
    trimLeadSlash l = l := by
  cases l with
  | nil => rfl
  | cons c rest =>
    by_cases hc : c = '/'
    · subst hc
      simp [leadsList] at h
    · unfold trimLeadSlash
      split
      · rename_i heq
        injection heq with h1 h2
        exact absurd h1 hc
      · rfl

/-- The dot-segment stack of `resolvePath` is the identity on a rooted
path without dot segments. -/
theorem cleanFull_ident (full : List Char) (hf : leadsList ['/'] full = true)
    (hnd : ∀ s ∈ splitOnSep '/' full, s ≠ ['.'] ∧ s ≠ ['.', '.']) :
    (if full = [] then ([] : List Char)
     else
       '/' :: trimLeadSlash (joinSep '/'
         (if (splitOnSep '/' full).getLast? = some ['.'] ∨
             (splitOnSep '/' full).getLast? = some ['.', '.'] then
           goCleanSegments (splitOnSep '/' full) ++ [[]]
         else goCleanSegments (splitOnSep '/' full)))) = full := by
  obtain ⟨t, rfl⟩ : ∃ t, full = '/' :: t := by
    cases full with
    | nil => simp [leadsList] at hf
    | cons c rest =>
      simp only [leadsList, Bool.and_eq_true, decide_eq_true_eq] at hf
      exact ⟨rest, by rw [hf.1]⟩
  have hlast : ¬ ((splitOnSep '/' ('/' :: t)).getLast? = some ['.'] ∨
      (splitOnSep '/' ('/' :: t)).getLast? = some ['.', '.']) := by
    rintro (h | h)
    · exact (hnd _ (getLast?_mem _ _ h)).1 rfl
    · exact (hnd _ (getLast?_mem _ _ h)).2 rfl
  rw [if_neg (by simp), if_neg hlast, goCleanSegments_noDots _ hnd, joinSep_splitOnSep]
  rfl

/-- The dot-segment stack of `resolvePath` prefixes a slash to a relative
path without dot segments. -/
theorem cleanFull_rel (full : List Char) (hne : full ≠ [])
    (hf : leadsList ['/'] full = false)
    (hnd : ∀ s ∈ splitOnSep '/' full, s ≠ ['.'] ∧ s ≠ ['.', '.']) :
    (if full = [] then ([] : List Char)
     else
       '/' :: trimLeadSlash (joinSep '/'
         (if (splitOnSep '/' full).getLast? = some ['.'] ∨
             (splitOnSep '/' full).getLast? = some ['.', '.'] then
           goCleanSegments (splitOnSep '/' full) ++ [[]]
         else goCleanSegments (splitOnSep '/' full)))) = '/' :: full := by
  have hlast : ¬ ((splitOnSep '/' full).getLast? = some ['.'] ∨
      (splitOnSep '/' full).getLast? = some ['.', '.']) := by
    rintro (h | h)
    · exact (hnd _ (getLast?_mem _ _ h)).1 rfl
    · exact (hnd _ (getLast?_mem _ _ h)).2 rfl
  rw [if_neg hne, if_neg hlast, goCleanSegments_noDots _ hnd, joinSep_splitOnSep,
    trimLeadSlash_of_not_slash full hf]

theorem str_eq_of_data {s t : String} (h : s.data = t.data) : s = t := by
  cases s
  cases t
  exact congrArg String.mk h

theorem str_data_ne {s : String} (h : s ≠ "") : s.data ≠ [] := by
  intro hd
  exact h (str_eq_of_data (by simp [hd]))

theorem leads_slash_cons {l : List Char} (h : leadsList ['/'] l = true) :
    ∃ t, l = '/' :: t := by
  cases l with
  | nil => simp [leadsList] at h
  | cons c rest =>
    simp only [leadsList, Bool.and_eq_true, decide_eq_true_eq] at h
    exact ⟨rest, by rw [h.1]⟩

theorem splitOnSep_slash_cons (t : List Char) :
    splitOnSep '/' ('/' :: t) = [] :: splitOnSep '/' t := rfl

/-- `resolvePath` with an empty reference is the identity on a parsed
(empty or rooted) dot-free base path. -/
theorem resolvePath_nil_ref (base : List Char)
    (hb : base = [] ∨ leadsList ['/'] base = true)
    (hnd : ∀ s ∈ splitOnSep '/' base, s ≠ ['.'] ∧ s ≠ ['.', '.']) :
    resolvePath base [] = base := by
  rcases hb with rfl | hb
  · rfl
  · obtain ⟨t, rfl⟩ := leads_slash_cons hb
    exact cleanFull_ident ('/' :: t) hb hnd

/-- `resolvePath` with a rooted dot-free reference returns it
unchanged. -/
theorem resolvePath_slash_ref (base ref : List Char) (hr : leadsList ['/'] ref = true)
    (hnd : ∀ s ∈ splitOnSep '/' ref, s ≠ ['.'] ∧ s ≠ ['.', '.']) :
    resolvePath base ref = ref := by
  obtain ⟨t, rfl⟩ := leads_slash_cons hr
  exact cleanFull_ident ('/' :: t) hr hnd

theorem rfcRemove_slash_cons (t : List Char)
    (hnd : ∀ s ∈ splitOnSep '/' t, s ≠ ['.'] ∧ s ≠ ['.', '.']) :
    rfcRemoveDotSegments (String.mk ('/' :: t)) = String.mk ('/' :: t) := by
  show String.mk (rfcSlashPhase (splitOnSep '/' t) []).flatten = _
  rw [rfcSlashPhase_noDots (splitOnSep '/' t) hnd [], List.nil_append]
  cases hsp : splitOnSep '/' t with
  | nil => exact absurd hsp (splitOnSep_ne_nil '/' t)
  | cons s ss =>
    rw [flatten_mapSlash s ss, ← hsp, joinSep_splitOnSep]

/-- RFC `remove_dot_segments` is the identity on an empty or rooted
dot-free path. -/
theorem rfcRemove_ident (p : String) (hp : p = "" ∨ leadsList ['/'] p.data = true)
    (hnd : ∀ s ∈ splitOnSep '/' p.data, s ≠ ['.'] ∧ s ≠ ['.', '.']) :
    rfcRemoveDotSegments p = p := by
  rcases hp with rfl | hp
  · rfl
  · obtain ⟨t, hd⟩ := leads_slash_cons hp
    have hps : p = String.mk ('/' :: t) := str_eq_of_data (by rw [hd])
    rw [hps]
    refine rfcRemove_slash_cons t (fun s hs => ?_)
    refine hnd s ?_
    rw [hd, splitOnSep_slash_cons]
    exact List.mem_cons_of_mem _ hs

theorem str_append_data (a b : String) : (a ++ b).data = a.data ++ b.data := by
  cases a
  cases b
  rfl

/-- `resolvePath` on a relative reference against an empty base prepends a
slash (dot-free case). -/
theorem resolvePath_rel_nilbase (ref : List Char) (hne : ref ≠ [])
    (hrs : leadsList ['/'] ref = false)
    (hnd : ∀ s ∈ splitOnSep '/' ref, s ≠ ['.'] ∧ s ≠ ['.', '.']) :
    resolvePath [] ref = '/' :: ref := by
  unfold resolvePath
  rw [if_neg hne, if_pos (show ¬ leadsList ['/'] ref = true by simp [hrs])]
  rw [show lastSlashCut [] ++ ref = ref from rfl]
  exact cleanFull_rel ref hne hrs hnd

/-- `resolvePath` on a relative reference merges it after the base's last
slash (dot-free case). -/
theorem resolvePath_rel_merge (base ref : List Char) (hne : ref ≠ [])
    (hrs : leadsList ['/'] ref = false)
    (hfs : leadsList ['/'] (lastSlashCut base ++ ref) = true)
    (hnd : ∀ s ∈ splitOnSep '/' (lastSlashCut base ++ ref), s ≠ ['.'] ∧ s ≠ ['.', '.']) :
    resolvePath base ref = lastSlashCut base ++ ref := by
  unfold resolvePath
  rw [if_neg hne, if_pos (show ¬ leadsList ['/'] ref = true by simp [hrs])]
  exact cleanFull_ident (lastSlashCut base ++ ref) hfs hnd

/-- On well-formed dot-free components (base with an authority and an
empty or rooted path; reference without opaque part, dot-free, and rooted
or empty whenever it is absolute or carries a host), Go's
`URL.ResolveReference` agrees with RFC 3986 section 5.3 reference
resolution. -/
theorem resolveReference_eq_rfc (u r : URL) (hhost : u.host ≠ "")
    (hopq : r.opq = "")
    (hund : ∀ s ∈ splitOnSep '/' u.path.data, s ≠ ['.'] ∧ s ≠ ['.', '.'])
    (hrnd : ∀ s ∈ splitOnSep '/' r.path.data, s ≠ ['.'] ∧ s ≠ ['.', '.'])
    (hup : u.path = "" ∨ leadsList ['/'] u.path.data = true)
    (hrp : r.scheme ≠ "" ∨ r.host ≠ "" → r.path = "" ∨ leadsList ['/'] r.path.data = true) :
    resolveReference u r = rfcResolve u r := by
  have wfdata : ∀ p : String, (p = "" ∨ leadsList ['/'] p.data = true) →
      (p.data = [] ∨ leadsList ['/'] p.data = true) := by
    rintro p (rfl | h)
    · exact Or.inl rfl
    · exact Or.inr h
  by_cases h1 : r.scheme ≠ "" ∨ r.host ≠ ""
  · have hrwf := hrp h1
    have hpath : String.mk (resolvePath r.path.data []) = rfcRemoveDotSegments r.path := by
      rw [resolvePath_nil_ref r.path.data (wfdata _ hrwf) hrnd,
        rfcRemove_ident r.path hrwf hrnd]
    unfold resolveReference rfcResolve
    rw [if_pos h1]
    by_cases hse : r.scheme = ""
    · have hh : r.host ≠ "" := by
        rcases h1 with h | h
        · exact absurd hse h
        · exact h
      rw [if_neg (not_not_intro hse), if_pos hh, if_pos hse, hopq, hpath]
    · rw [if_pos hse, if_neg hse, hopq, hpath]
  · push_neg at h1
    obtain ⟨hs, hh⟩ := h1
    unfold resolveReference rfcResolve
    rw [if_neg (show ¬(r.scheme ≠ "" ∨ r.host ≠ "") by simp [hs, hh]),
      if_neg (not_not_intro hopq), if_neg (not_not_intro hs), if_neg (not_not_intro hh),
      if_pos hs]
    by_cases hrpe : r.path = ""
    · rw [if_pos hrpe, hrpe]
      have hpe : String.mk (resolvePath u.path.data ("" : String).data) = u.path := by
        show String.mk (resolvePath u.path.data []) = u.path
        rw [resolvePath_nil_ref u.path.data (wfdata _ hup) hund]
      rw [hpe]
      by_cases hq : r.rawQuery = ""
      · rw [if_pos ⟨rfl, hq⟩, if_neg (not_not_intro hq)]
      · rw [if_neg (fun hc => hq hc.2), if_pos hq]
    · rw [if_neg hrpe, if_neg (fun hc => hrpe hc.1)]
      by_cases hlead : leadsList ['/'] r.path.data = true
      · rw [if_pos hlead]
        have hpl : String.mk (resolvePath u.path.data r.path.data) =
            rfcRemoveDotSegments r.path := by
          rw [resolvePath_slash_ref u.path.data r.path.data hlead hrnd,
            rfcRemove_ident r.path (Or.inr hlead) hrnd]
        rw [hpl]
      · rw [if_neg hlead]
        have hleadf : leadsList ['/'] r.path.data = false := by
          simpa using hlead
        by_cases hupe : u.path = ""
        · have hud : u.path.data = [] := by rw [hupe]
          have hgo : String.mk (resolvePath u.path.data r.path.data) =
              String.mk ('/' :: r.path.data) := by
            rw [hud, resolvePath_rel_nilbase r.path.data (str_data_ne hrpe) hleadf hrnd]
          have hmerge : rfcMergePaths u r.path = "/" ++ r.path := by
            unfold rfcMergePaths
            rw [if_pos ⟨hhost, hupe⟩]
          have hmdata : ("/" ++ r.path) = String.mk ('/' :: r.path.data) :=
            str_eq_of_data (by rw [str_append_data]; rfl)
          have hrfc : rfcRemoveDotSegments (rfcMergePaths u r.path) =
              String.mk ('/' :: r.path.data) := by
            rw [hmerge, hmdata]
            exact rfcRemove_slash_cons r.path.data hrnd
          rw [hgo, hrfc]
        · have hulead : leadsList ['/'] u.path.data = true := hup.resolve_left hupe
          obtain ⟨t, hut⟩ := leads_slash_cons hulead
          have hsome : ∃ ba, splitAtLast '/' u.path.data = some ba := by
            cases hsa : splitAtLast '/' u.path.data with
            | some ba => exact ⟨ba, rfl⟩
            | none =>
              exact absurd (by rw [hut]; exact List.mem_cons_self _ _)
                (splitAtLast_none '/' u.path.data hsa)
          obtain ⟨⟨b, a⟩, hsa⟩ := hsome
          have hbeq : u.path.data = b ++ '/' :: a := splitAtLast_spec '/' u.path.data b a hsa
          have hcut : lastSlashCut u.path.data = b ++ ['/'] := by
            unfold lastSlashCut
            rw [hsa]
          have hfull : lastSlashCut u.path.data ++ r.path.data = b ++ '/' :: r.path.data := by
            rw [hcut, List.append_assoc]
            rfl
          have hflead : leadsList ['/'] (lastSlashCut u.path.data ++ r.path.data) = true := by
            rw [hfull]
            cases b with
            | nil => rfl
            | cons c bs =>
              have hc : c = '/' := by
                rw [hut] at hbeq
                injection hbeq with h1 _
                exact h1.symm
              rw [hc]
              rfl
          have hfnd : ∀ s ∈ splitOnSep '/' (lastSlashCut u.path.data ++ r.path.data),
              s ≠ ['.'] ∧ s ≠ ['.', '.'] := by
            rw [hfull, splitOnSep_append]
            intro s hs
            rcases List.mem_append.mp hs with h | h
            · refine hund s ?_
              rw [hbeq, splitOnSep_append]
              exact List.mem_append_left _ h
            · exact hrnd s h
          have hgo : resolvePath u.path.data r.path.data =
              lastSlashCut u.path.data ++ r.path.data :=
            resolvePath_rel_merge _ _ (str_data_ne hrpe) hleadf hflead hfnd
          have hmerge : rfcMergePaths u r.path =
              String.mk (lastSlashCut u.path.data ++ r.path.data) := by
            unfold rfcMergePaths
            rw [if_neg (fun hc => hupe hc.2)]
            exact str_eq_of_data (by rw [str_append_data])
          have hrfc : rfcRemoveDotSegments (rfcMergePaths u r.path) =
              String.mk (lastSlashCut u.path.data ++ r.path.data) := by
            rw [hmerge]
            exact rfcRemove_ident _ (Or.inr hflead) hfnd
          rw [hgo, hrfc]

/-! Claim theorems. -/

/-- C10: for every call to `Get[T]` or `Post[B, T]` and every transport
behaviour, exactly one of the returned decoded-value pointer and the
returned error is nil: the pointer is populated exactly when the error is
absent, on every path (auth, encode, transport, status, read, decode,
success). -/
theorem claim10_exclusive_result {B T : Type} (c : ReqClient.Requester)
    (targetURL path : String) (query : List (String × String))
    (authType : ReqClient.AuthType) (credential : Option String) (body : B)
    (marshal : B → Except String String) (unmarshal : String → Except String T) :
    ((ReqClient.Get c targetURL path query authType credential unmarshal).1.isSome ↔
      (ReqClient.Get c targetURL path query authType credential unmarshal).2.2 = none) ∧
    ((ReqClient.Post c targetURL path query body authType credential marshal
        unmarshal).1.isSome ↔
      (ReqClient.Post c targetURL path query body authType credential marshal
        unmarshal).2.2 = none) := by
  constructor
  · unfold ReqClient.Get
    rcases hsa : ReqClient.setAuth authType credential [("Accept", "application/json")]
      with e | h
    · simp [hsa]
    · rcases htr : c "GET" targetURL path h query none with e | r
      · simp [hsa, htr]
      · rcases hb : r.body with e | b
        · by_cases h200 : r.statusCode = 200 <;> simp [hsa, htr, hb, h200]
        · rcases hum : unmarshal b with e | v <;>
            by_cases h200 : r.statusCode = 200 <;> simp [hsa, htr, hb, hum, h200]
  · unfold ReqClient.Post
    rcases hsa : ReqClient.setAuth authType credential
        [("Accept", "application/json"), ("Content-Type", "application/json")] with e | h
    · simp [hsa]
    · rcases hm : marshal body with e | j
      · simp [hsa, hm]
      · rcases htr : c "POST" targetURL path h query (some j) with e | r
        · simp [hsa, hm, htr]
        · rcases hb : r.body with e | b
          · by_cases h200 : r.statusCode = 200 <;> simp [hsa, hm, htr, hb, h200]
          · rcases hum : unmarshal b with e | v <;>
              by_cases h200 : r.statusCode = 200 <;> simp [hsa, hm, htr, hb, hum, h200]

/-- C4 (code bug): when `setAuth` fails inside `Get`, the source wraps the
nil named return `err` (`fmt.Errorf("failed to set auth: %w", err)`)
instead of `aErr`, so the wrapped error is `failed to set auth:
%!w(<nil>)` and the auth-dispatch cause is lost; `Post` wraps the cause as
the claim states.  Evaluated at the failing credential `"userpass"` under
`Basic` auth. -/
theorem claim4_auth_error_dropped :
    (ReqClient.Get (T := Unit) (fun _ _ _ _ _ _ => .error "unused")
        "http://example.com" "/p" [] .basic (some "userpass") (fun _ => .error "unused")) =
      (none, 0, some "failed to set auth: %!w(<nil>)") ∧
    occursIn "invalid basic auth credential".data "failed to set auth: %!w(<nil>)".data =
      false ∧
    (ReqClient.Post (B := Unit) (T := Unit) (fun _ _ _ _ _ _ => .error "unused")
        "http://example.com" "/p" [] () .basic (some "userpass") (fun _ => .ok "{}")
        (fun _ => .error "unused")) =
      (none, 0,
        some "failed to set auth: failed to parse basic auth: invalid basic auth credential") := by
  exact ⟨by decide, by decide, by decide⟩

/-- C3 fails on the code: a pre-flight failure (here a `Post` body-encoding
failure) reports status 0 — an absent status, not an internal-error class
code — and a decode failure reports the 500 sentinel instead of the
observed 200. -/
theorem claim3_counterexample :
    (ReqClient.Post (B := Unit) (T := Unit) (fun _ _ _ _ _ _ => .error "unused")
        "http://example.com" "/p" [] () .token (some "tok")
        (fun _ => .error "cannot marshal") (fun _ => .error "unused")).2.1 = 0 ∧
    ¬ (500 ≤ (ReqClient.Post (B := Unit) (T := Unit) (fun _ _ _ _ _ _ => .error "unused")
        "http://example.com" "/p" [] () .token (some "tok")
        (fun _ => .error "cannot marshal") (fun _ => .error "unused")).2.1) ∧
    (ReqClient.Get (T := Unit) (fun _ _ _ _ _ _ => .ok ⟨200, .ok "garbage"⟩)
        "http://example.com" "/p" [] .token none (fun _ => .error "bad json")).2.1 = 500 ∧
    (500 : Int) ≠ 200 := by
  exact ⟨by decide, by decide, by decide, by decide⟩

/-- C3 (amended): callers of `Get`/`Post` receive the observed status code
on unexpected-status failures and on success; transport failures and
post-response failures (body read, JSON decode) report the internal-error
sentinel 500; pre-flight failures (auth dispatch for both, body encoding
for `Post`) report 0. -/
theorem claim3_status_codes {B T : Type} (c : ReqClient.Requester)
    (targetURL path : String) (query : List (String × String))
    (authType : ReqClient.AuthType) (credential : Option String) (body : B)
    (marshal : B → Except String String) (unmarshal : String → Except String T) :
    (∀ e, ReqClient.setAuth authType credential [("Accept", "application/json")] = .error e →
      (ReqClient.Get c targetURL path query authType credential unmarshal).2.1 = 0) ∧
    (∀ h e, ReqClient.setAuth authType credential [("Accept", "application/json")] = .ok h →
      c "GET" targetURL path h query none = .error e →
      (ReqClient.Get c targetURL path query authType credential unmarshal).2.1 = 500) ∧
    (∀ h r, ReqClient.setAuth authType credential [("Accept", "application/json")] = .ok h →
      c "GET" targetURL path h query none = .ok r → r.statusCode ≠ 200 →
      (ReqClient.Get c targetURL path query authType credential unmarshal).2.1 =
        r.statusCode) ∧
    (∀ h r e, ReqClient.setAuth authType credential [("Accept", "application/json")] = .ok h →
      c "GET" targetURL path h query none = .ok r → r.statusCode = 200 → r.body = .error e →
      (ReqClient.Get c targetURL path query authType credential unmarshal).2.1 = 500) ∧
    (∀ h r b e, ReqClient.setAuth authType credential [("Accept", "application/json")] = .ok h →
      c "GET" targetURL path h query none = .ok r → r.statusCode = 200 → r.body = .ok b →
      unmarshal b = .error e →
      (ReqClient.Get c targetURL path query authType credential unmarshal).2.1 = 500) ∧
    (∀ h r b v, ReqClient.setAuth authType credential [("Accept", "application/json")] = .ok h →
      c "GET" targetURL path h query none = .ok r → r.statusCode = 200 → r.body = .ok b →
      unmarshal b = .ok v →
      (ReqClient.Get c targetURL path query authType credential unmarshal).2.1 =
        r.statusCode) ∧
    (∀ e, ReqClient.setAuth authType credential
        [("Accept", "application/json"), ("Content-Type", "application/json")] = .error e →
      (ReqClient.Post c targetURL path query body authType credential marshal
        unmarshal).2.1 = 0) ∧
    (∀ h e, ReqClient.setAuth authType credential
        [("Accept", "application/json"), ("Content-Type", "application/json")] = .ok h →
      marshal body = .error e →
      (ReqClient.Post c targetURL path query body authType credential marshal
        unmarshal).2.1 = 0) ∧
    (∀ h j e, ReqClient.setAuth authType credential
        [("Accept", "application/json"), ("Content-Type", "application/json")] = .ok h →
      marshal body = .ok j → c "POST" targetURL path h query (some j) = .error e →
      (ReqClient.Post c targetURL path query body authType credential marshal
        unmarshal).2.1 = 500) ∧
    (∀ h j r, ReqClient.setAuth authType credential
        [("Accept", "application/json"), ("Content-Type", "application/json")] = .ok h →
      marshal body = .ok j → c "POST" targetURL path h query (some j) = .ok r →
      r.statusCode ≠ 200 →
      (ReqClient.Post c targetURL path query body authType credential marshal
        unmarshal).2.1 = r.statusCode) ∧
    (∀ h j r e, ReqClient.setAuth authType credential
        [("Accept", "application/json"), ("Content-Type", "application/json")] = .ok h →
      marshal body = .ok j → c "POST" targetURL path h query (some j) = .ok r →
      r.statusCode = 200 → r.body = .error e →
      (ReqClient.Post c targetURL path query body authType credential marshal
        unmarshal).2.1 = 500) ∧
    (∀ h j r b e, ReqClient.setAuth authType credential
        [("Accept", "application/json"), ("Content-Type", "application/json")] = .ok h →
      marshal body = .ok j → c "POST" targetURL path h query (some j) = .ok r →
      r.statusCode = 200 → r.body = .ok b → unmarshal b = .error e →
      (ReqClient.Post c targetURL path query body authType credential marshal
        unmarshal).2.1 = 500) ∧
    (∀ h j r b v, ReqClient.setAuth authType credential
        [("Accept", "application/json"), ("Content-Type", "application/json")] = .ok h →
      marshal body = .ok j → c "POST" targetURL path h query (some j) = .ok r →
      r.statusCode = 200 → r.body = .ok b → unmarshal b = .ok v →
      (ReqClient.Post c targetURL path query body authType credential marshal
        unmarshal).2.1 = r.statusCode) := by
  refine ⟨?_, ?_, ?_, ?_, ?_, ?_, ?_, ?_, ?_, ?_, ?_, ?_, ?_⟩
  · intro e he
    unfold ReqClient.Get
    simp [he]
  · intro h e hok htr
    unfold ReqClient.Get
    simp [hok, htr]
  · intro h r hok htr hne
    unfold ReqClient.Get
    simp [hok, htr, hne]
  · intro h r e hok htr h200 hbody
    unfold ReqClient.Get
    simp [hok, htr, h200, hbody]
  · intro h r b e hok htr h200 hbody hun
    unfold ReqClient.Get
    simp [hok, htr, h200, hbody, hun]
  · intro h r b v hok htr h200 hbody hun
    unfold ReqClient.Get
    simp [hok, htr, h200, hbody, hun]
  · intro e he
    unfold ReqClient.Post
    simp [he]
  · intro h e hok hm
    unfold ReqClient.Post
    simp [hok, hm]
  · intro h j e hok hm htr
    unfold ReqClient.Post
    simp [hok, hm, htr]
  · intro h j r hok hm htr hne
    unfold ReqClient.Post
    simp [hok, hm, htr, hne]
  · intro h j r e hok hm htr h200 hbody
    unfold ReqClient.Post
    simp [hok, hm, htr, h200, hbody]
  · intro h j r b e hok hm htr h200 hbody hun
    unfold ReqClient.Post
    simp [hok, hm, htr, h200, hbody, hun]
  · intro h j r b v hok hm htr h200 hbody hun
    unfold ReqClient.Post
    simp [hok, hm, htr, h200, hbody, hun]

/-- Witness for C3 (amended): a transport failure reports 500, an
unexpected status reports the observed 404, a pre-flight auth failure
in `Post` reports 0, and a successful `Post` reports the observed 200. -/
theorem claim3_witness :
    (ReqClient.Get (T := Unit) (fun _ _ _ _ _ _ => .error "conn refused")
        "http://example.com" "/p" [] .token none (fun _ => .error "unused")).2.1 = 500 ∧
    (ReqClient.Get (T := Unit) (fun _ _ _ _ _ _ => .ok ⟨404, .ok ""⟩)
        "http://example.com" "/p" [] .token none (fun _ => .error "unused")).2.1 = 404 ∧
    (ReqClient.Post (B := Unit) (T := Unit) (fun _ _ _ _ _ _ => .error "unused")
        "http://example.com" "/p" [] () .basic (some "userpass") (fun _ => .ok "{}")
        (fun _ => .error "unused")).2.1 = 0 ∧
    (ReqClient.Post (B := Unit) (T := Unit) (fun _ _ _ _ _ _ => .ok ⟨200, .ok "{}"⟩)
        "http://example.com" "/p" [] () .token none (fun _ => .ok "{}")
        (fun _ => .ok ())).2.1 = 200 := by
  refine ⟨?_, ?_, ?_, ?_⟩
  · exact (claim3_status_codes (B := Unit) (fun _ _ _ _ _ _ => .error "conn refused")
      "http://example.com" "/p" [] .token none () (fun _ => .ok "{}")
      (fun _ => .error "unused")).2.1 [("Accept", "application/json")] "conn refused" rfl rfl
  · exact (claim3_status_codes (B := Unit) (fun _ _ _ _ _ _ => .ok ⟨404, .ok ""⟩)
      "http://example.com" "/p" [] .token none () (fun _ => .ok "{}")
      (fun _ => .error "unused")).2.2.1 [("Accept", "application/json")] ⟨404, .ok ""⟩
      rfl rfl (by decide)
  · exact (claim3_status_codes (T := Unit) (fun _ _ _ _ _ _ => .error "unused")
      "http://example.com" "/p" [] .basic (some "userpass") () (fun _ => .ok "{}")
      (fun _ => .error "unused")).2.2.2.2.2.2.1
      "failed to parse basic auth: invalid basic auth credential" rfl
  · exact (claim3_status_codes (fun _ _ _ _ _ _ => .ok ⟨200, .ok "{}"⟩)
      "http://example.com" "/p" [] .token none () (fun _ => .ok "{}")
      (fun _ => .ok ())).2.2.2.2.2.2.2.2.2.2.2.2
      [("Accept", "application/json"), ("Content-Type", "application/json")] "{}"
      ⟨200, .ok "{}"⟩ "{}" () rfl rfl rfl rfl rfl rfl

/-- C5: for `Basic` auth with a non-nil credential, a credential that
splits on `:` into exactly two parts has the `Authorization` header set to
`Basic ` followed by the standard base64 encoding of the credential, and
base64-decoding that encoding recovers the credential's bytes
(round-trip); a credential that does not split into exactly two parts
makes auth dispatch fail with the invalid-credential error, setting no
header. -/
theorem claim5_basic_auth (cred : String) (header : List (String × String)) :
    ((splitOnSep ':' cred.data).length = 2 →
      ReqClient.setAuth .basic (some cred) header =
        .ok (mapSet header "Authorization" ("Basic " ++ b64encodeStr cred)) ∧
      base64decode (b64encodeStr cred).data = some (strBytes cred)) ∧
    ((splitOnSep ':' cred.data).length ≠ 2 →
      ReqClient.setAuth .basic (some cred) header =
        .error "failed to parse basic auth: invalid basic auth credential") := by
  constructor
  · intro h2
    constructor
    · unfold ReqClient.setAuth ReqClient.parseBasicAuth
      simp [h2]
    · show base64decode (base64encode (strBytes cred)) = some (strBytes cred)
      exact base64decode_base64encode _ (strBytes_lt cred)
  · intro hne
    unfold ReqClient.setAuth ReqClient.parseBasicAuth
    simp [hne]

/-- Witness for C5: `"user:pass"` succeeds and round-trips,
`"userpass"` fails. -/
theorem claim5_witness :
    (splitOnSep ':' "user:pass".data).length = 2 ∧
    ReqClient.setAuth .basic (some "user:pass") [] =
      .ok [("Authorization", "Basic " ++ b64encodeStr "user:pass")] ∧
    base64decode (b64encodeStr "user:pass").data = some (strBytes "user:pass") ∧
    (splitOnSep ':' "userpass".data).length ≠ 2 ∧
    ReqClient.setAuth .basic (some "userpass") [] =
      .error "failed to parse basic auth: invalid basic auth credential" := by
  refine ⟨by decide, ((claim5_basic_auth "user:pass" []).1 (by decide)).1,
    ((claim5_basic_auth "user:pass" []).1 (by decide)).2, by decide,
    (claim5_basic_auth "userpass" []).2 (by decide)⟩

/-- C2 (spec-modelled): for every id list and every completion order
(permutation), the orchestrator returns exactly the successes (multiset
equality, order irrelevant), every failure is logged and excluded from
the result, sibling successes always appear (no abort), and the function
is total — its type has no failure outcome. -/
theorem claim2_orchestrator {α : Type} (fetch : Int → Except String α)
    (ids sched : List Int) (hperm : sched.Perm ids) :
    (Photos.fetchAllConcurrently fetch sched).1.Perm
      (ids.filterMap (fun i => (fetch i).toOption)) ∧
    (∀ i ∈ ids, ∀ e, fetch i = .error e →
      (i, e) ∈ (Photos.fetchAllConcurrently fetch sched).2 ∧
      (fetch i).toOption = none) ∧
    (∀ i ∈ ids, ∀ a, fetch i = .ok a →
      a ∈ (Photos.fetchAllConcurrently fetch sched).1) := by
  refine ⟨hperm.filterMap _, ?_, ?_⟩
  · intro i hi e he
    refine ⟨?_, by simp [he, Except.toOption]⟩
    have hi' : i ∈ sched := hperm.mem_iff.mpr hi
    simp only [Photos.fetchAllConcurrently, List.mem_filterMap]
    exact ⟨i, hi', by simp [he]⟩
  · intro i hi a ha
    have hi' : i ∈ sched := hperm.mem_iff.mpr hi
    simp only [Photos.fetchAllConcurrently, List.mem_filterMap]
    exact ⟨i, hi', by simp [ha, Except.toOption]⟩

/-- Witness for C2: ids 1..5 with id 1 failing, completion order
reversed: the result is exactly the `{2,3,4,5}`-derived successes. -/
theorem claim2_witness :
    ([5, 4, 3, 2, 1] : List Int).Perm [1, 2, 3, 4, 5] ∧
    (Photos.fetchAllConcurrently
        (fun i => if i = 1 then Except.error "error" else Except.ok i)
        [5, 4, 3, 2, 1]).1.Perm
      (([1, 2, 3, 4, 5] : List Int).filterMap
        (fun i =>
          ((fun i => if i = 1 then Except.error "error" else Except.ok i) i).toOption)) ∧
    (Photos.fetchAllConcurrently
        (fun i => if i = 1 then Except.error "error" else Except.ok i)
        [5, 4, 3, 2, 1]).1 = [5, 4, 3, 2] :=
  ⟨by decide,
    (claim2_orchestrator (fun i => if i = 1 then Except.error "error" else Except.ok i)
      [1, 2, 3, 4, 5] [5, 4, 3, 2, 1] (by decide)).1,
    by decide⟩

/-- C9: `PhotoClient.GetPhotos` passes a nil credential to `Get`, so auth
dispatch sets nothing: the result depends on the transport only through
the single call carrying the `Accept`-only header — no `Authorization`
entry — and the `albumId` query, and the stored auth type cannot affect
the request or the result. -/
theorem claim9_nil_credential (baseURL : String) (at1 at2 : ReqClient.AuthType)
    (unmarshal : String → Except String Photos.Photo) (id : Int)
    (c1 c2 : ReqClient.Requester)
    (hsame : c1 "GET" baseURL Photos.photoPath [("Accept", "application/json")]
        [("albumId", toString id)] none =
      c2 "GET" baseURL Photos.photoPath [("Accept", "application/json")]
        [("albumId", toString id)] none) :
    Photos.PhotoClient.GetPhotos ⟨baseURL, at1, c1⟩ unmarshal id =
      Photos.PhotoClient.GetPhotos ⟨baseURL, at2, c2⟩ unmarshal id ∧
    List.lookup "Authorization" [("Accept", "application/json")] = none := by
  constructor
  · unfold Photos.PhotoClient.GetPhotos ReqClient.Get
    dsimp only [ReqClient.setAuth]
    rw [hsame]
  · rfl

/-- C1 fails on the code: plain `Get` at a delivered 404 with body
`"oops"` returns an error carrying only the code — the raw body text does
not occur in it (the body is never read) — and the paginated helper `get`
with an unreadable body at status 500 fails, but not with the
unexpected-status error, although 500 is outside [200,300). -/
theorem claim1_counterexample :
    (ReqClient.Get (T := Unit) (fun _ _ _ _ _ _ => .ok ⟨404, .ok "oops"⟩)
        "http://example.com" "/p" [] .token none (fun _ => .error "unused")).2.2 =
      some "unexpected status code: 404" ∧
    occursIn "oops".data "unexpected status code: 404".data = false ∧
    (VariantA.get (T := Unit)
        ⟨.noAuth, ⟨"http", "", "h", "", ""⟩, fun _ => .ok ⟨500, .error "io fail"⟩, ""⟩
        "/p" [] (fun _ => .error "unused")).2 =
      some "failed to read response body: io fail" ∧
    isUnexpectedStatusErr (some "failed to read response body: io fail") = false := by
  exact ⟨by decide, by decide, by decide, by decide⟩

/-- C1 (amended): with a response delivered, plain `Get` fails with the
unexpected-status error exactly when the status is strictly not 200, the
error carrying the status code but not the body (which is not read), and
no decode is attempted (the outcome is independent of the decoder); the
paginated helpers (`get`, `pagedGet`, `pagedGetGeneric`) read the body
first and, when that read succeeds, fail with the unexpected-status error
exactly when the status is outside [200,300), the error carrying both the
code and the raw body text, again with no decode attempted. -/
theorem claim1_status_errors {B T1 T2 T3 R : Type} (c : ReqClient.Requester)
    (targetURL path : String) (query : List (String × String))
    (authType : ReqClient.AuthType) (credential : Option String)
    (unmarshal unmarshal2 : String → Except String T1)
    (pbody : B) (marshal : B → Except String String)
    (va : VariantA.Client) (vpath : String) (vquery : List (String × String))
    (vunm vunm2 : String → Except String T2)
    (punm punm2 : String → Except String (VariantA.paginatedResponse T3))
    (gunm gunm2 : String → Except String R) :
    (∀ h r, ReqClient.setAuth authType credential [("Accept", "application/json")] = .ok h →
      c "GET" targetURL path h query none = .ok r →
      (isUnexpectedStatusErr
          (ReqClient.Get c targetURL path query authType credential unmarshal).2.2 = true ↔
        r.statusCode ≠ 200) ∧
      (r.statusCode ≠ 200 →
        (ReqClient.Get c targetURL path query authType credential unmarshal).2.2 =
          some ("unexpected status code: " ++ toString r.statusCode) ∧
        ReqClient.Get c targetURL path query authType credential unmarshal =
          ReqClient.Get c targetURL path query authType credential unmarshal2)) ∧
    (∀ h j r, ReqClient.setAuth authType credential
        [("Accept", "application/json"), ("Content-Type", "application/json")] = .ok h →
      marshal pbody = .ok j → c "POST" targetURL path h query (some j) = .ok r →
      (isUnexpectedStatusErr
          (ReqClient.Post c targetURL path query pbody authType credential marshal
            unmarshal).2.2 = true ↔
        r.statusCode ≠ 200) ∧
      (r.statusCode ≠ 200 →
        (ReqClient.Post c targetURL path query pbody authType credential marshal
          unmarshal).2.2 = some ("unexpected status code: " ++ toString r.statusCode) ∧
        ReqClient.Post c targetURL path query pbody authType credential marshal unmarshal =
          ReqClient.Post c targetURL path query pbody authType credential marshal
            unmarshal2)) ∧
    (∀ r b, (VariantA.Client.Get va vpath vquery).1 = .ok r → r.body = .ok b →
      (isUnexpectedStatusErr (VariantA.get va vpath vquery vunm).2 = true ↔
        (r.statusCode < 200 ∨ 300 ≤ r.statusCode)) ∧
      ((r.statusCode < 200 ∨ 300 ≤ r.statusCode) →
        (VariantA.get va vpath vquery vunm).2 =
          some ("unexpected status code: " ++ toString r.statusCode ++ ", response: " ++ b) ∧
        occursIn b.data ("unexpected status code: " ++ toString r.statusCode ++
          ", response: " ++ b).data = true ∧
        VariantA.get va vpath vquery vunm = VariantA.get va vpath vquery vunm2)) ∧
    (∀ r b, (VariantA.Client.Get va vpath vquery).1 = .ok r → r.body = .ok b →
      (isUnexpectedStatusErr (VariantA.pagedGet va vpath vquery punm).2 = true ↔
        (r.statusCode < 200 ∨ 300 ≤ r.statusCode)) ∧
      ((r.statusCode < 200 ∨ 300 ≤ r.statusCode) →
        (VariantA.pagedGet va vpath vquery punm).2 =
          some ("unexpected status code: " ++ toString r.statusCode ++ ", response: " ++ b) ∧
        VariantA.pagedGet va vpath vquery punm = VariantA.pagedGet va vpath vquery punm2)) ∧
    (∀ r b, (VariantA.Client.Get va vpath vquery).1 = .ok r → r.body = .ok b →
      (isUnexpectedStatusErr (VariantA.pagedGetGeneric va vpath vquery gunm).2 = true ↔
        (r.statusCode < 200 ∨ 300 ≤ r.statusCode)) ∧
      ((r.statusCode < 200 ∨ 300 ≤ r.statusCode) →
        (VariantA.pagedGetGeneric va vpath vquery gunm).2 =
          some ("unexpected status code: " ++ toString r.statusCode ++ ", response: " ++ b) ∧
        VariantA.pagedGetGeneric va vpath vquery gunm =
          VariantA.pagedGetGeneric va vpath vquery gunm2)) := by
  refine ⟨?_, ?_, ?_, ?_, ?_⟩
  · intro h r hok htr
    constructor
    · unfold ReqClient.Get
      by_cases h200 : r.statusCode = 200
      · rcases hb : r.body with e | b
        · simp [hok, htr, h200, hb]
          exact isUnexpected_append_f _ _ rfl
        · rcases hum : unmarshal b with e | v
          · simp [hok, htr, h200, hb, hum]
            exact isUnexpected_append_f _ _ rfl
          · simp [hok, htr, h200, hb, hum, isUnexpectedStatusErr]
      · simp [hok, htr, h200]
        exact isUnexpected_statusMsg _
    · intro hne
      unfold ReqClient.Get
      simp [hok, htr, hne]
  · intro h j r hok hm htr
    constructor
    · unfold ReqClient.Post
      by_cases h200 : r.statusCode = 200
      · rcases hb : r.body with e | b
        · simp [hok, hm, htr, h200, hb]
          exact isUnexpected_append_f _ _ rfl
        · rcases hum : unmarshal b with e | v
          · simp [hok, hm, htr, h200, hb, hum]
            exact isUnexpected_append_f _ _ rfl
          · simp [hok, hm, htr, h200, hb, hum, isUnexpectedStatusErr]
      · simp [hok, hm, htr, h200]
        exact isUnexpected_statusMsg _
    · intro hne
      unfold ReqClient.Post
      simp [hok, hm, htr, hne]
  · intro r b hcg hb
    constructor
    · unfold VariantA.get
      by_cases hrange : r.statusCode < 200 ∨ 300 ≤ r.statusCode
      · simp [hcg, hb, hrange]
        exact isUnexpected_statusMsg2 _ _ _
      · rcases hum : vunm b with e | v
        · simp [hcg, hb, hrange, hum]
          exact isUnexpected_append_f _ _ rfl
        · simp [hcg, hb, hrange, hum, isUnexpectedStatusErr]
    · intro hrange
      unfold VariantA.get
      refine ⟨by simp [hcg, hb, hrange], ?_, by simp [hcg, hb, hrange]⟩
      rw [String.data_append]
      exact occursIn_suffix _ _
  · intro r b hcg hb
    constructor
    · unfold VariantA.pagedGet
      by_cases hrange : r.statusCode < 200 ∨ 300 ≤ r.statusCode
      · simp [hcg, hb, hrange]
        exact isUnexpected_statusMsg2 _ _ _
      · rcases hum : punm b with e | v
        · simp [hcg, hb, hrange, hum]
          exact isUnexpected_append_f _ _ rfl
        · simp [hcg, hb, hrange, hum, isUnexpectedStatusErr]
    · intro hrange
      unfold VariantA.pagedGet
      exact ⟨by simp [hcg, hb, hrange], by simp [hcg, hb, hrange]⟩
  · intro r b hcg hb
    constructor
    · unfold VariantA.pagedGetGeneric
      by_cases hrange : r.statusCode < 200 ∨ 300 ≤ r.statusCode
      · simp [hcg, hb, hrange]
        exact isUnexpected_statusMsg2 _ _ _
      · rcases hum : gunm b with e | v
        · simp [hcg, hb, hrange, hum]
          exact isUnexpected_append_f _ _ rfl
        · simp [hcg, hb, hrange, hum, isUnexpectedStatusErr]
    · intro hrange
      unfold VariantA.pagedGetGeneric
      exact ⟨by simp [hcg, hb, hrange], by simp [hcg, hb, hrange]⟩

/-- Witness for C1 (amended): a delivered 404 makes plain `Get` fail with
the unexpected-status error, and the paginated helper at a delivered 500
with readable body `"B"` fails carrying both the code and the body. -/
theorem claim1_witness :
    isUnexpectedStatusErr
      (ReqClient.Get (T := Unit) (fun _ _ _ _ _ _ => .ok ⟨404, .ok "body"⟩)
        "http://example.com" "/p" [] .token none (fun _ => .error "unused")).2.2 = true ∧
    (VariantA.get (T := Unit)
        ⟨.noAuth, ⟨"http", "", "h", "", ""⟩, fun _ => .ok ⟨500, .ok "B"⟩, ""⟩
        "/p" [] (fun _ => .error "unused")).2 =
      some ("unexpected status code: " ++ toString (500 : Int) ++ ", response: " ++ "B") := by
  constructor
  · exact ((@claim1_status_errors Unit Unit Unit Unit Unit
      (fun _ _ _ _ _ _ => .ok ⟨404, .ok "body"⟩) "http://example.com" "/p" [] .token none
      (fun _ => .error "unused") (fun _ => .error "unused") () (fun _ => .ok "{}")
      ⟨.noAuth, ⟨"http", "", "h", "", ""⟩, fun _ => .ok ⟨500, .ok "B"⟩, ""⟩ "/p" []
      (fun _ => .error "unused") (fun _ => .error "unused") (fun _ => .error "unused")
      (fun _ => .error "unused") (fun _ => .error "unused") (fun _ => .error "unused")).1
      [("Accept", "application/json")] ⟨404, .ok "body"⟩ rfl rfl).1.mpr (by decide)
  · exact (((@claim1_status_errors Unit Unit Unit Unit Unit
      (fun _ _ _ _ _ _ => .ok ⟨404, .ok "body"⟩) "http://example.com" "/p" [] .token none
      (fun _ => .error "unused") (fun _ => .error "unused") () (fun _ => .ok "{}")
      ⟨.noAuth, ⟨"http", "", "h", "", ""⟩, fun _ => .ok ⟨500, .ok "B"⟩, ""⟩ "/p" []
      (fun _ => .error "unused") (fun _ => .error "unused") (fun _ => .error "unused")
      (fun _ => .error "unused") (fun _ => .error "unused") (fun _ => .error "unused")).2.2.1
      ⟨500, .ok "B"⟩ "B" rfl rfl).2 (by decide)).1

/-- Counterexample to C6 as stated: the builder's URL resolution is not
RFC 3986 reference resolution.  Go's `ResolveReference` removes dot
segments from the base path even for an empty reference (`/a/../b` with
ref `""` gives `/b`; the RFC keeps the base path `/a/../b`), and for a
rooted reference whose dot segments pop past the root the results differ
(`/..//a` against base `/x` gives `/a` in Go, `//a` per the RFC). -/
theorem claim6_counterexample :
    urlParse "http://h/a/../b" = .ok ⟨"http", "", "h", "/a/../b", ""⟩ ∧
    urlParse "" = .ok ⟨"", "", "", "", ""⟩ ∧
    (resolveReference ⟨"http", "", "h", "/a/../b", ""⟩ ⟨"", "", "", "", ""⟩).path = "/b" ∧
    (rfcResolve ⟨"http", "", "h", "/a/../b", ""⟩ ⟨"", "", "", "", ""⟩).path = "/a/../b" ∧
    ((CoreClient.Request (fun _ => .ok ⟨200, .ok ""⟩) "GET" "http://h/a/../b" "" [] []
        none).2.map (fun req => req.url.path)) = ["/b"] ∧
    (resolveReference ⟨"http", "", "h", "/x", ""⟩ ⟨"", "", "", "/..//a", ""⟩).path = "/a" ∧
    (rfcResolve ⟨"http", "", "h", "/x", ""⟩ ⟨"", "", "", "/..//a", ""⟩).path = "//a" :=
  ⟨rfl, rfl, rfl, rfl, rfl, rfl, rfl⟩

/-- C6 (amended): the request builder fails with a wrapped parse error and
an empty transport log when either the base URL or the path is unparsable;
when both parse, on well-formed dot-free components (base with a host and
an empty or rooted path, reference without opaque part whose path is empty
or rooted whenever the reference is absolute or carries a host) the single
request issued carries exactly the URL of RFC 3986 reference resolution of
the path against the base, with the resolved query re-encoded together
with the caller's query mapping. -/
theorem claim6_url_resolution (doFn : HTTPRequest → Except String Response)
    (method targetURL path : String) (headers query : List (String × String))
    (body : Option String) :
    (∀ e, urlParse targetURL = .error e →
      CoreClient.Request doFn method targetURL path headers query body =
        (.error ("failed to parse URL: " ++ e), [])) ∧
    (∀ u e, urlParse targetURL = .ok u → urlParse path = .error e →
      CoreClient.Request doFn method targetURL path headers query body =
        (.error ("failed to parse path: " ++ e), [])) ∧
    (∀ u r, urlParse targetURL = .ok u → urlParse path = .ok r →
      u.host ≠ "" → r.opq = "" →
      (∀ s ∈ splitOnSep '/' u.path.data, s ≠ ['.'] ∧ s ≠ ['.', '.']) →
      (∀ s ∈ splitOnSep '/' r.path.data, s ≠ ['.'] ∧ s ≠ ['.', '.']) →
      (u.path = "" ∨ leadsList ['/'] u.path.data = true) →
      (r.scheme ≠ "" ∨ r.host ≠ "" → r.path = "" ∨ leadsList ['/'] r.path.data = true) →
      ∃ req, (CoreClient.Request doFn method targetURL path headers query body).2 = [req] ∧
        req.url.scheme = (rfcResolve u r).scheme ∧
        req.url.opq = (rfcResolve u r).opq ∧
        req.url.host = (rfcResolve u r).host ∧
        req.url.path = (rfcResolve u r).path ∧
        req.url.rawQuery =
          valuesEncode (valuesAddAll (parseQueryValues (rfcResolve u r).rawQuery) query)) := by
  refine ⟨?_, ?_, ?_⟩
  · intro e he
    unfold CoreClient.Request
    rw [he]
  · intro u e hu he
    unfold CoreClient.Request
    rw [hu, he]
  · intro u r hu hr hhost hopq hund hrnd hup hrp
    have heq := resolveReference_eq_rfc u r hhost hopq hund hrnd hup hrp
    refine ⟨⟨method,
      ⟨(resolveReference u r).scheme, (resolveReference u r).opq, (resolveReference u r).host,
        (resolveReference u r).path,
        valuesEncode (valuesAddAll (parseQueryValues (resolveReference u r).rawQuery) query)⟩,
      setHeaders [] headers, body⟩, ?_, ?_, ?_, ?_, ?_, ?_⟩
    · unfold CoreClient.Request
      simp only [hu, hr]
      split <;> rfl
    · show (resolveReference u r).scheme = (rfcResolve u r).scheme
      rw [heq]
    · show (resolveReference u r).opq = (rfcResolve u r).opq
      rw [heq]
    · show (resolveReference u r).host = (rfcResolve u r).host
      rw [heq]
    · show (resolveReference u r).path = (rfcResolve u r).path
      rw [heq]
    · show valuesEncode (valuesAddAll (parseQueryValues (resolveReference u r).rawQuery) query) =
        valuesEncode (valuesAddAll (parseQueryValues (rfcResolve u r).rawQuery) query)
      rw [heq]

/-- Witness for C6: resolving path `/c` against base
`http://example.com/a/b` yields `http://example.com/c` (reference
resolution, not the naive concatenation `/a/b/c`). -/
theorem claim6_witness :
    ∃ req, (CoreClient.Request (fun _ => .ok ⟨200, .ok ""⟩) "GET" "http://example.com/a/b"
        "/c" [] [] none).2 = [req] ∧
      req.url.scheme = "http" ∧ req.url.host = "example.com" ∧ req.url.path = "/c" ∧
      req.url.rawQuery = "" := by
  obtain ⟨req, hlog, hsch, _, hhoste, hpathe, hq⟩ :=
    (claim6_url_resolution (fun _ => .ok ⟨200, .ok ""⟩) "GET" "http://example.com/a/b" "/c"
        [] [] none).2.2
      ⟨"http", "", "example.com", "/a/b", ""⟩ ⟨"", "", "", "/c", ""⟩
      rfl rfl (by decide) rfl (by decide) (by decide) (by decide) (by decide)
  exact ⟨req, hlog, hsch.trans rfl, hhoste.trans rfl, hpathe.trans rfl, hq.trans rfl⟩

/-- C7: in the request builder, every entry of the query mapping appears
in the final query string as `escape(key)=escape(value)` under standard
form encoding, where a space escapes to `+`; the alternate client variant
post-processes the encoded query string, replacing every `+` by `%20`, so
there each entry appears with spaces encoded as `%20`. -/
theorem claim7_query_encoding (doFn : HTTPRequest → Except String Response)
    (method targetURL path : String) (headers query : List (String × String))
    (body : Option String) (vb : VariantB.Client) (urlPath : String)
    (u r u0 : URL) (hu : urlParse targetURL = .ok u) (hr : urlParse path = .ok r)
    (hu0 : urlParse urlPath = .ok u0) :
    (∃ req, (CoreClient.Request doFn method targetURL path headers query body).2 = [req] ∧
      req.url.rawQuery =
        valuesEncode (valuesAddAll (parseQueryValues (resolveReference u r).rawQuery) query) ∧
      ∀ kv ∈ query, occursIn (encodePiece kv.1 kv.2) req.url.rawQuery.data = true) ∧
    (∃ req, (VariantB.Client.Get vb urlPath query).2 = [req] ∧
      req.url.rawQuery =
        String.mk (replacePlusChars
          (valuesEncode (valuesAddAll (parseQueryValues u0.rawQuery) query)).data) ∧
      ∀ kv ∈ query,
        occursIn (replacePlusChars (encodePiece kv.1 kv.2)) req.url.rawQuery.data = true) ∧
    queryEscape " " = "+" ∧ queryEscape "a b" = "a+b" ∧
    String.mk (replacePlusChars (queryEscape "a b").data) = "a%20b" := by
  refine ⟨?_, ?_, by decide, by decide, by decide⟩
  · refine ⟨⟨method,
      ⟨(resolveReference u r).scheme, (resolveReference u r).opq, (resolveReference u r).host,
        (resolveReference u r).path,
        valuesEncode (valuesAddAll (parseQueryValues (resolveReference u r).rawQuery) query)⟩,
      setHeaders [] headers, body⟩, ?_, rfl, ?_⟩
    · unfold CoreClient.Request
      simp only [hu, hr]
      split <;> rfl
    · intro kv hkv
      exact valuesEncode_occurs _ kv.1 kv.2
        (valuesAddAll_has query (parseQueryValues (resolveReference u r).rawQuery) kv.1 kv.2
          (by simpa using hkv))
  · refine ⟨⟨"GET",
      ⟨u0.scheme, u0.opq, u0.host, u0.path,
        String.mk (replacePlusChars
          (valuesEncode (valuesAddAll (parseQueryValues u0.rawQuery) query)).data)⟩,
      vb.SetAuthType (setHeaders [] [("Accept", "application/json")]), none⟩, ?_, rfl, ?_⟩
    · unfold VariantB.Client.Get
      simp only [hu0]
      split <;> rfl
    · intro kv hkv
      show occursIn (replacePlusChars (encodePiece kv.1 kv.2))
        (replacePlusChars
          (valuesEncode (valuesAddAll (parseQueryValues u0.rawQuery) query)).data) = true
      refine occursIn_replacePlus _ _ ?_
      exact valuesEncode_occurs _ kv.1 kv.2
        (valuesAddAll_has query (parseQueryValues u0.rawQuery) kv.1 kv.2
          (by simpa using hkv))

/-- Witness for C7: a value containing a space is sent as `q=a+b` by the
request builder and as `q=a%20b` by the alternate variant. -/
theorem claim7_witness :
    (∃ req, (CoreClient.Request (fun _ => .ok ⟨200, .ok ""⟩) "GET" "http://example.com" "/p"
        [] [("q", "a b")] none).2 = [req] ∧
      req.url.rawQuery =
        valuesEncode (valuesAddAll (parseQueryValues
          (resolveReference ⟨"http", "", "example.com", "", ""⟩
            ⟨"", "", "", "/p", ""⟩).rawQuery) [("q", "a b")]) ∧
      ∀ kv ∈ [("q", "a b")], occursIn (encodePiece kv.1 kv.2) req.url.rawQuery.data = true) ∧
    valuesEncode (valuesAddAll (parseQueryValues
      (resolveReference ⟨"http", "", "example.com", "", ""⟩
        ⟨"", "", "", "/p", ""⟩).rawQuery) [("q", "a b")]) = "q=a+b" ∧
    queryEscape "a b" = "a+b" := by
  refine ⟨(claim7_query_encoding (fun _ => .ok ⟨200, .ok ""⟩) "GET" "http://example.com" "/p"
    [] [("q", "a b")] none
    ⟨.bearer, ⟨"http", "", "h", "/x", ""⟩, fun _ => .ok ⟨200, .ok ""⟩, "t"⟩ "http://h/x"
    ⟨"http", "", "example.com", "", ""⟩ ⟨"", "", "", "/p", ""⟩ ⟨"http", "", "h", "/x", ""⟩
    rfl rfl rfl).1, by decide, by decide⟩

/-- C8 fails on the code: when the extracted `page` value is empty (the
next-page URL parses but has no `page` parameter), it is not placed into
the query mapping — the loop's condition skips the update — so the second
call reuses the previous mapping instead of carrying the extracted value. -/
theorem claim8_counterexample :
    (VariantA.paginate (T := Int)
        [fun _ => .ok ⟨[10], "http://x/l", 2⟩, fun _ => .ok ⟨[20], "", 2⟩]
        [("page", "7")] "").2 = [[("page", "7")], [("page", "7")]] ∧
    VariantA.extractPage "http://x/l" = .ok "" ∧
    mapSet [("page", "7")] "page" "" = [("page", "")] ∧
    ([("page", "7")] : List (String × String)) ≠ [("page", "")] := by
  exact ⟨by decide, rfl, by decide, by decide⟩

/-- C8 (amended): over a script of pages whose last page is the first
with an empty next-page token, `paginate` returns all page items in one
ordered sequence (pages in fetch order, items in page order), and the
query for each subsequent call carries the `page` value extracted from
the previous page's parsed next-page URL whenever that value is
non-empty (otherwise the previous mapping is reused); and when no served
page has an empty token the run never terminates successfully within the
script. -/
theorem claim8_paginate {T : Type} :
    (∀ (pages : List (VariantA.paginatedResponse T)) (q : List (String × String))
      (np : String) (hne : pages ≠ [])
      (_ : (pages.getLast hne).NextPage = "")
      (_ : ∀ p ∈ pages.dropLast, p.NextPage ≠ "" ∧ ∃ u, urlParse p.NextPage = .ok u),
      VariantA.paginate (VariantA.pagesScript pages) q np =
        (some (.ok (pages.map (fun p => p.Items)).flatten),
         VariantA.queryTrace (VariantA.nextQuery q np) pages)) ∧
    (∀ (pages : List (VariantA.paginatedResponse T)) (q : List (String × String))
      (np : String),
      (∀ p ∈ pages, p.NextPage ≠ "" ∧ ∃ u, urlParse p.NextPage = .ok u) →
      (VariantA.paginate (VariantA.pagesScript pages) q np).1 = none) := by
  constructor
  · intro pages
    induction pages with
    | nil => intro q np hne _ _; exact absurd rfl hne
    | cons p rest ih =>
      intro q np hne hlast hmid
      cases rest with
      | nil =>
        have hp : p.NextPage = "" := hlast
        rw [show VariantA.pagesScript [p] = [fun _ => Except.ok p] from rfl]
        unfold VariantA.paginate
        simp [hp, VariantA.queryTrace, VariantA.nextQuery]
        cases VariantA.extractPage ("" : String) <;> rfl
      | cons p2 rest2 =>
        have hpm := hmid p (by
          rw [List.dropLast_cons₂]
          exact List.mem_cons_self _ _)
        obtain ⟨hp, u, hu⟩ := hpm
        have hlast2 : ((p2 :: rest2).getLast (List.cons_ne_nil p2 rest2)).NextPage = "" := by
          rw [← List.getLast_cons (List.cons_ne_nil p2 rest2)]
          exact hlast
        have hmid2 : ∀ x ∈ (p2 :: rest2).dropLast,
            x.NextPage ≠ "" ∧ ∃ u, urlParse x.NextPage = .ok u := by
          intro x hx
          exact hmid x (by rw [List.dropLast_cons₂]; exact List.mem_cons_of_mem _ hx)
        have ihres := ih (VariantA.nextQuery q np)
          (valuesGet (parseQueryValues u.rawQuery) "page")
          (List.cons_ne_nil p2 rest2) hlast2 hmid2
        have hextract : VariantA.extractPage p.NextPage =
            .ok (valuesGet (parseQueryValues u.rawQuery) "page") := by
          unfold VariantA.extractPage
          rw [hu]
        have htrace : VariantA.queryTrace (VariantA.nextQuery q np) (p :: p2 :: rest2) =
            VariantA.nextQuery q np ::
              VariantA.queryTrace
                (VariantA.nextQuery (VariantA.nextQuery q np)
                  (valuesGet (parseQueryValues u.rawQuery) "page")) (p2 :: rest2) := by
          rw [VariantA.queryTrace, hextract]
        rw [show VariantA.pagesScript (p :: p2 :: rest2) =
          (fun _ => Except.ok p) :: VariantA.pagesScript (p2 :: rest2) from rfl]
        unfold VariantA.paginate
        simp only [show (if np ≠ "" then mapSet q "page" np else q) =
          VariantA.nextQuery q np from rfl, if_neg hp, hu, ihres]
        rw [htrace]
        simp [Except.map]
  · intro pages
    induction pages with
    | nil => intro q np _; rfl
    | cons p rest ih =>
      intro q np h
      obtain ⟨hp, u, hu⟩ := h p (List.mem_cons_self _ _)
      rw [show VariantA.pagesScript (p :: rest) =
        (fun _ => Except.ok p) :: VariantA.pagesScript rest from rfl]
      unfold VariantA.paginate
      simp only [if_neg hp, hu]
      have ihres := ih (if np ≠ "" then mapSet q "page" np else q)
        (valuesGet (parseQueryValues u.rawQuery) "page")
        (fun x hx => h x (List.mem_cons_of_mem _ hx))
      rcases hpp : VariantA.paginate (VariantA.pagesScript rest)
          (if np ≠ "" then mapSet q "page" np else q)
          (valuesGet (parseQueryValues u.rawQuery) "page") with ⟨r, qs⟩
      rw [hpp] at ihres
      simp only at ihres
      simp [hpp, ihres]

/-- Witness for C8 (amended): two pages, the first pointing at
`?page=2`, accumulate `[1,2,3,4]` and the second call's query carries
`page=2`. -/
theorem claim8_witness :
    VariantA.paginate (VariantA.pagesScript (T := Int)
        [⟨[1, 2], "http://x/l?page=2", 4⟩, ⟨[3, 4], "", 4⟩]) [("albumId", "9")] "" =
      (some (.ok (([⟨[1, 2], "http://x/l?page=2", 4⟩, ⟨[3, 4], "", 4⟩] :
          List (VariantA.paginatedResponse Int)).map (fun p => p.Items)).flatten),
       VariantA.queryTrace (VariantA.nextQuery [("albumId", "9")] "")
         [⟨[1, 2], "http://x/l?page=2", 4⟩, ⟨[3, 4], "", 4⟩]) ∧
    VariantA.queryTrace (VariantA.nextQuery [("albumId", "9")] "")
        ([⟨[1, 2], "http://x/l?page=2", 4⟩, ⟨[3, 4], "", 4⟩] :
          List (VariantA.paginatedResponse Int)) =
      [[("albumId", "9")], [("albumId", "9"), ("page", "2")]] := by
  refine ⟨?_, by decide⟩
  exact (claim8_paginate (T := Int)).1
    [⟨[1, 2], "http://x/l?page=2", 4⟩, ⟨[3, 4], "", 4⟩] [("albumId", "9")] ""
    (List.cons_ne_nil _ _) rfl
    (by
      intro p hp
      rw [List.dropLast_cons₂] at hp
      simp only [List.dropLast_single, List.mem_singleton] at hp
      subst hp
      exact ⟨by decide, ⟨"http", "", "x", "/l", "page=2"⟩, rfl⟩)

/-- Witness for C9: the same transport under `Basic` and `Token` auth
types yields identical `GetPhotos` results. -/
theorem claim9_witness :
    Photos.PhotoClient.GetPhotos
        ⟨"https://jsonplaceholder.typicode.com", .basic,
          fun _ _ _ _ _ _ => .ok ⟨200, .ok "x"⟩⟩
        (fun _ => .ok ⟨1, 1, "test", "test", "test"⟩) 1 =
      Photos.PhotoClient.GetPhotos
        ⟨"https://jsonplaceholder.typicode.com", .token,
          fun _ _ _ _ _ _ => .ok ⟨200, .ok "x"⟩⟩
        (fun _ => .ok ⟨1, 1, "test", "test", "test"⟩) 1 ∧
    List.lookup "Authorization" [("Accept", "application/json")] = none :=
  claim9_nil_credential "https://jsonplaceholder.typicode.com" .basic .token
    (fun _ => .ok ⟨1, 1, "test", "test", "test"⟩) 1
    (fun _ _ _ _ _ _ => .ok ⟨200, .ok "x"⟩) (fun _ _ _ _ _ _ => .ok ⟨200, .ok "x"⟩) rfl

end SkeletonApi
